import Mathlib

/-!
Verification of the libtimetag SSTT header parser and dataset importer
(`src/__init__.py`: `read_sstt_header`, `import_data`) against its
natural-language specification.

The Python code is shallowly embedded: dictionaries become association
lists, the line loop becomes a step function over an explicit parser
state, numpy fixed-width integers become `Int` with explicit wrapping,
and every code path that raises an uncaught Python exception or returns
the `None` sentinel becomes an `Except` error.  Floating-point and
datetime coercion of the three experiment-header fields is performed by
external libraries (numpy / dateutil) and no claim depends on the coerced
values, so experiment-header values are stored as raw tokens.
-/

namespace LibTimetag

/-! ## Association lists (embedding of Python dicts, insertion ordered) -/

/-- Lookup in an association list; first binding wins (keys are unique by
construction, as in a Python dict). -/
def lookupA {κ α : Type} [DecidableEq κ] (k : κ) : List (κ × α) → Option α
  | [] => none
  | (k', v) :: rest => if k' = k then some v else lookupA k rest

/-- Dict assignment `d[k] = v`: replaces an existing binding in place, or
appends a new binding at the end (Python dicts preserve insertion order). -/
def setA {κ α : Type} [DecidableEq κ] (k : κ) (v : α) : List (κ × α) → List (κ × α)
  | [] => [(k, v)]
  | (k', v') :: rest => if k' = k then (k, v) :: rest else (k', v') :: setA k v rest

theorem lookupA_setA_self {κ α : Type} [DecidableEq κ] (k : κ) (v : α) (m : List (κ × α)) :
    lookupA k (setA k v m) = some v := by
  induction m with
  | nil => simp [setA, lookupA]
  | cons p rest ih =>
    obtain ⟨k', v'⟩ := p
    by_cases h : k' = k
    · simp [setA, h, lookupA]
    · simp [setA, h, lookupA, ih]

theorem lookupA_setA_ne {κ α : Type} [DecidableEq κ] (k k' : κ) (v : α) (m : List (κ × α))
    (h : k' ≠ k) : lookupA k (setA k' v m) = lookupA k m := by
  induction m with
  | nil => simp [setA, lookupA, h]
  | cons p rest ih =>
    obtain ⟨k₀, v₀⟩ := p
    by_cases h₀ : k₀ = k'
    · subst h₀
      simp [setA, lookupA, h, ih]
    · have h₂ : k ≠ k' := fun hh => h hh.symm
      by_cases h₁ : k₀ = k
      · subst h₁
        simp [setA, h₀, h₂, lookupA]
      · simp [setA, h₀, lookupA, h₁, ih]

/-! ## Python primitive operations -/

/-- Accumulate the numeric value of a digit string; fails on a non-digit. -/
def digitsValAux : List Char → Nat → Option Nat
  | [], acc => some acc
  | c :: rest, acc =>
    if c.isDigit then digitsValAux rest (acc * 10 + (c.toNat - 48)) else none

/-- Embedding of Python `int(str)`: an optional sign followed by a nonempty
digit string.  (Surrounding whitespace and interior underscores, which
CPython also accepts, are not modelled; no claim involves such tokens.) -/
def pyIntParse (s : String) : Option Int :=
  match s.data with
  | [] => none
  | '-' :: rest =>
    match rest with
    | [] => none
    | _ => (digitsValAux rest 0).map (fun n => -(n : Int))
  | '+' :: rest =>
    match rest with
    | [] => none
    | _ => (digitsValAux rest 0).map (fun n => (n : Int))
  | l => (digitsValAux l 0).map (fun n => (n : Int))

/-- Embedding of Python `str.split('\t')` on the character list: splits at
every tab, preserving empty segments (no merging of adjacent separators). -/
def splitTabChars : List Char → List (List Char)
  | [] => [[]]
  | c :: rest =>
    if c = '\t' then [] :: splitTabChars rest
    else
      match splitTabChars rest with
      | t :: ts => (c :: t) :: ts
      | [] => [[c]]

/-- Embedding of Python `l.split("\t")` on strings. -/
def splitTab (s : String) : List String :=
  (splitTabChars s.data).map (fun l => ⟨l⟩)

/-- Embedding of Python `s.replace('"', '')`: removes every double-quote
character (a single-character pattern with empty replacement removes all
occurrences, interior ones included). -/
def removeQ : List Char → List Char
  | [] => []
  | c :: rest => if c = '"' then removeQ rest else c :: removeQ rest

/-- String coercion applied to `str`-typed channel fields. -/
def stripQuotes (s : String) : String := ⟨removeQ s.data⟩

/-! ## Error model

Python signals failures in three ways in `read_sstt_header`: a printed
diagnostic followed by `return None` (the two column-count mismatches), a
printed diagnostic followed by `break` (missing `ChannelID` column — this
still returns a normal result and is therefore NOT an error value here),
and uncaught exceptions from value coercion or indexing. -/

inductive PErr : Type
  /-- "Error in experiment header!" followed by `return None`. -/
  | expMismatch
  /-- "Error in channel header!" followed by `return None`. -/
  | chanMismatch
  /-- Uncaught `ValueError` (e.g. `int(...)` on a non-numeric token). -/
  | pyValueError
  /-- Uncaught `TypeError` (e.g. indexing a list with `None`). -/
  | pyTypeError
  /-- Uncaught `IndexError` (list index out of range). -/
  | pyIndexError
  /-- Uncaught `OverflowError` (integer out of range for a numpy type). -/
  | pyOverflowError
deriving Repr, DecidableEq

/-! ## numpy fixed-width integer scalars (pre-1.24 semantics: construction
from a Python int within C-long range wraps two's-complement; a value
outside C-long range raises `OverflowError`). -/

/-- Embedding of `np.int8(n)`. -/
def npInt8 (n : Int) : Except PErr Int :=
  if -(2 ^ 63) ≤ n ∧ n < 2 ^ 63 then .ok ((n + 128) % 256 - 128) else .error .pyOverflowError

/-- Embedding of `np.int32(n)`. -/
def npInt32 (n : Int) : Except PErr Int :=
  if -(2 ^ 63) ≤ n ∧ n < 2 ^ 63 then .ok ((n + 2 ^ 31) % 2 ^ 32 - 2 ^ 31)
  else .error .pyOverflowError

/-- Embedding of `np.int64(n)`. -/
def npInt64 (n : Int) : Except PErr Int :=
  if -(2 ^ 63) ≤ n ∧ n < 2 ^ 63 then .ok n else .error .pyOverflowError

/-- Parse a token with Python `int`; a malformed literal raises `ValueError`. -/
def pyIntE (s : String) : Except PErr Int :=
  match pyIntParse s with
  | some n => .ok n
  | none => .error .pyValueError

/-! ## Channel header records

Embedding of the per-channel dict: the 13 keys of `default_chan_header`
become typed fields with the source defaults; `PulsePeriod` is absent from
the parser's dict and only added by `import_data`, hence `Option Int`
defaulting to `none`; assignments under unknown column names land in
`extras` as raw tokens. -/

structure ChanRec : Type where
  ChannelID : Option Int := none
  Filename : String := "None"
  NumPhotons : Int := 0
  NumOverflows : Int := 0
  Filesize : Int := 0
  HardwareSyncDivider : Int := 1
  AdditionalSyncDivider : Int := 1
  TotalSyncDivider : Int := 1
  IsPulsesChannel : Bool := false
  HasPulsesChannel : Bool := false
  CorrespondingPulsesChannel : Option Int := none
  HasMicrotimes : Bool := false
  MicroDelayTime : Int := 0
  PulsePeriod : Option Int := none
  extras : List (String × String) := []
deriving Repr, DecidableEq

/-- The `default_chan_header` dict of the source. -/
def defaultChanHeader : ChanRec := {}

/-- Coercion of an `int`-typed column (Python `int(c)`, arbitrary precision). -/
def intCoerce (tok : String) : Except PErr Int := pyIntE tok

/-- Coercion of an `np.int64`-typed column. -/
def int64Coerce (tok : String) : Except PErr Int :=
  match pyIntE tok with
  | .error e => .error e
  | .ok n => npInt64 n

/-- Coercion of the `np.int32`-typed column `CorrespondingPulsesChannel`. -/
def int32Coerce (tok : String) : Except PErr Int :=
  match pyIntE tok with
  | .error e => .error e
  | .ok n => npInt32 n

/-- Coercion of an `np.bool`-typed column: the source first narrows the
token through `np.int8` (which accepts any integer literal, not only
"0"/"1") and then converts the resulting integer to a boolean, so every
nonzero parsed value yields `true`. -/
def boolCoerce (tok : String) : Except PErr Bool :=
  match pyIntE tok with
  | .error e => .error e
  | .ok n =>
    match npInt8 n with
    | .error e => .error e
    | .ok v => .ok (decide (v ≠ 0))

/-- One assignment `chan_headers[chan_ID][header_name] = c` with the
per-field coercion of `chan_info_types`: `int` for `ChannelID`, `np.int64`
for the 64-bit fields, `np.int8` then `np.bool` for the three boolean
fields, `np.int32` for `CorrespondingPulsesChannel`, quote-stripped `str`
for `Filename`; unknown names store the raw token. -/
def assignChanField (r : ChanRec) (name : String) (tok : String) : Except PErr ChanRec :=
  if name = "ChannelID" then
    match intCoerce tok with
    | .error e => .error e
    | .ok n => .ok { r with ChannelID := some n }
  else if name = "Filename" then
    .ok { r with Filename := stripQuotes tok }
  else if name = "NumPhotons" then
    match int64Coerce tok with
    | .error e => .error e
    | .ok v => .ok { r with NumPhotons := v }
  else if name = "NumOverflows" then
    match int64Coerce tok with
    | .error e => .error e
    | .ok v => .ok { r with NumOverflows := v }
  else if name = "Filesize" then
    match int64Coerce tok with
    | .error e => .error e
    | .ok v => .ok { r with Filesize := v }
  else if name = "HardwareSyncDivider" then
    match int64Coerce tok with
    | .error e => .error e
    | .ok v => .ok { r with HardwareSyncDivider := v }
  else if name = "AdditionalSyncDivider" then
    match int64Coerce tok with
    | .error e => .error e
    | .ok v => .ok { r with AdditionalSyncDivider := v }
  else if name = "TotalSyncDivider" then
    match int64Coerce tok with
    | .error e => .error e
    | .ok v => .ok { r with TotalSyncDivider := v }
  else if name = "IsPulsesChannel" then
    match boolCoerce tok with
    | .error e => .error e
    | .ok b => .ok { r with IsPulsesChannel := b }
  else if name = "HasPulsesChannel" then
    match boolCoerce tok with
    | .error e => .error e
    | .ok b => .ok { r with HasPulsesChannel := b }
  else if name = "CorrespondingPulsesChannel" then
    match int32Coerce tok with
    | .error e => .error e
    | .ok v => .ok { r with CorrespondingPulsesChannel := some v }
  else if name = "HasMicrotimes" then
    match boolCoerce tok with
    | .error e => .error e
    | .ok b => .ok { r with HasMicrotimes := b }
  else if name = "MicroDelayTime" then
    match int64Coerce tok with
    | .error e => .error e
    | .ok v => .ok { r with MicroDelayTime := v }
  else
    .ok { r with extras := setA name tok r.extras }

/-- The assignment loop `for j,c in enumerate(contents)` of a channel row,
over (column name, token) pairs. -/
def assignChanAll : ChanRec → List (String × String) → Except PErr ChanRec
  | r, [] => .ok r
  | r, (n, t) :: rest =>
    match assignChanField r n t with
    | .error e => .error e
    | .ok r' => assignChanAll r' rest

/-! ## Experiment header

Values are stored as raw tokens (`some tok`); the default for the absent
start timestamp is `none`.  The typed coercion of the three known fields
(float / datetime, via numpy and dateutil) is not modelled: no claim
depends on the coerced values. -/

def expDefaults : List (String × Option String) :=
  [("Time_unit_seconds", some "81e-12"),
   ("device_type", some "qutau"),
   ("experiment_start_timestamp_UTC", none)]

/-- The assignment loop of the experiment-header value row. -/
def assignExpAll : List (String × Option String) → List (String × String) →
    List (String × Option String)
  | m, [] => m
  | m, (n, t) :: rest => assignExpAll (setA n (some t) m) rest

/-! ## Parser state machine -/

/-- The loop state of `read_sstt_header`: the four dispatch flags, the two
column-name lists, the `ChannelID` column index and the two accumulated
headers.  `seenChanHeadings` is a ghost field recording every line consumed
as a channel column-name line; it influences no behavior and is used only
to state theorems. -/
structure PState : Type where
  start_exp_header : Bool := false
  exp_header_contents : Bool := false
  start_chan_header : Bool := false
  chan_header_contents : Bool := false
  exp_header_headings : List String := []
  chan_header_headings : List String := []
  chan_ID_index : Option Nat := none
  exp_header : List (String × Option String) := expDefaults
  chan_headers : List (Int × ChanRec) := []
  seenChanHeadings : List (List String) := []
deriving Repr, DecidableEq

/-- The initial state of the parse loop. -/
def pInit : PState := {}

/-- Index of the first column literally named "ChannelID". -/
def findCID : List String → Option Nat
  | [] => none
  | h :: t => if h = "ChannelID" then some 0 else (findCID t).map (· + 1)

/-- Outcome of one loop iteration: continue with a new state, `break` out
of the loop (the missing-ChannelID path, which still returns normally), or
abort with an error. -/
inductive StepOut : Type
  | next (s : PState)
  | stop (s : PState)
  | err (e : PErr)
deriving Repr

/-- The token list a channel value row is consumed through:
`contents = l.split("\t")` followed by `[c for c in contents if c]`, which
removes EVERY empty token (interior ones included). -/
def nonEmptyTokens (l : String) : List String :=
  (splitTab l).filter (fun c => c ≠ "")

/-- Consumption of one channel value row, after the source has split the
line on tab and removed every empty token: count check against the column
names, key extraction at the `ChannelID` index, unconditional
re-initialization of the key's record from the defaults, and the
assignment loop. -/
def chanRowStep (s : PState) (contents : List String) : StepOut :=
  if contents.length ≠ s.chan_header_headings.length then .err .chanMismatch
  else
    match s.chan_ID_index with
    | none => .err .pyTypeError
    | some i =>
      match contents[i]? with
      | none => .err .pyIndexError
      | some tok =>
        match pyIntParse tok with
        | none => .err .pyValueError
        | some k =>
          match assignChanAll defaultChanHeader (s.chan_header_headings.zip contents) with
          | .error e => .err e
          | .ok r => .next { s with chan_headers := setA k r s.chan_headers }

/-- One iteration of the `for i,l in enumerate(lines)` loop of
`read_sstt_header`, with the source's dispatch order: the two marker
comparisons, then `start_exp_header`, `exp_header_contents`,
`start_chan_header`, `chan_header_contents`. -/
def stepLine (s : PState) (l : String) : StepOut :=
  if l = "EXPERIMENT_HEADER" then
    .next { s with start_exp_header := true }
  else if l = "CHANNEL_HEADER" then
    .next { s with start_chan_header := true }
  else if s.start_exp_header then
    .next { s with exp_header_headings := splitTab l,
                   start_exp_header := false, exp_header_contents := true }
  else if s.exp_header_contents then
    if (splitTab l).length ≠ s.exp_header_headings.length then .err .expMismatch
    else
      .next { s with exp_header := assignExpAll s.exp_header (s.exp_header_headings.zip (splitTab l)),
                     exp_header_contents := false }
  else if s.start_chan_header then
    if (match findCID (splitTab l) with
        | some j => some j
        | none => s.chan_ID_index) = (none : Option Nat) then
      .stop { s with chan_header_headings := splitTab l,
                     seenChanHeadings := s.seenChanHeadings ++ [splitTab l] }
    else
      .next { s with chan_header_headings := splitTab l,
                     chan_ID_index := match findCID (splitTab l) with
                       | some j => some j
                       | none => s.chan_ID_index,
                     start_chan_header := false, chan_header_contents := true,
                     seenChanHeadings := s.seenChanHeadings ++ [splitTab l] }
  else if s.chan_header_contents then
    if l = "" then .next { s with chan_header_contents := false }
    else chanRowStep s (nonEmptyTokens l)
  else
    .next s

/-- The whole line loop: every line dispatched in order; `break` returns
the state accumulated so far, an error aborts. -/
def runLines : PState → List String → Except PErr PState
  | s, [] => .ok s
  | s, l :: ls =>
    match stepLine s l with
    | .next s' => runLines s' ls
    | .stop s' => .ok s'
    | .err e => .error e

/-- Embedding of `read_sstt_header`, over the already-read list of
newline-stripped lines: runs the loop from the initial state and returns
the pair `(exp_header, chan_headers)`. -/
def read_sstt_header (lines : List String) :
    Except PErr (List (String × Option String) × List (Int × ChanRec)) :=
  match runLines pInit lines with
  | .ok s => .ok (s.exp_header, s.chan_headers)
  | .error e => .error e

/-- Channel-map view of a step outcome at one key: the record mapping the
key after the step when the step did not abort, `none` on an error.  Used
to state that a row's stored record does not depend on the map's prior
contents. -/
def chanOfStep (o : StepOut) (k : Int) : Option (Option ChanRec) :=
  match o with
  | .next s => some (lookupA k s.chan_headers)
  | .stop s => some (lookupA k s.chan_headers)
  | .err _ => none

example : splitTab "a\t\tb" = ["a", "", "b"] := by rfl
example : pyIntParse "12" = some 12 := by rfl
example : pyIntParse "-3" = some (-3) := by rfl
example : pyIntParse "true" = none := by rfl
example : stripQuotes "a\"b" = "ab" := by rfl

/-! ## Claim C3: missing `ChannelID` column -/

/-- Claim C3, counterexample: on an input whose channel column-name line
contains no column named `ChannelID`, `read_sstt_header` does not fail with
a missing-column error; it prints a diagnostic, breaks out of the line
loop, and returns a successfully-parsed (experiment header, channel
mapping) result — here the defaults and the empty mapping. -/
theorem C3_counterexample :
    read_sstt_header ["CHANNEL_HEADER", "Foo"] = .ok (expDefaults, []) := by rfl

/-- Claim C3 (amended): when the parser is awaiting a channel column-name
line, the line's tab-split contains no `ChannelID` column, and no earlier
channel section established a `ChannelID` index, the parse stops early: the
remaining lines are ignored and the experiment header and channel mapping
accumulated so far are returned as a normal, non-error result. -/
theorem C3_missing_channelid_returns_partial
    (s : PState) (l : String) (rest : List String)
    (h1 : l ≠ "EXPERIMENT_HEADER") (h2 : l ≠ "CHANNEL_HEADER")
    (h3 : s.start_exp_header = false) (h4 : s.exp_header_contents = false)
    (h5 : s.start_chan_header = true)
    (h6 : findCID (splitTab l) = none) (h7 : s.chan_ID_index = none) :
    (runLines s (l :: rest)).map (fun s' => (s'.exp_header, s'.chan_headers)) =
      .ok (s.exp_header, s.chan_headers) := by
  simp [runLines, stepLine, Except.map, h1, h2, h3, h4, h5, h6, h7]

/-- Claim C3 amended, witness: a concrete awaiting-channel-columns state, a
column line without `ChannelID`, and a nonempty remainder that is ignored. -/
theorem C3_missing_channelid_returns_partial_witness :
    (runLines { pInit with start_chan_header := true } ["Foo", "junk\tmore"]).map
      (fun s' => (s'.exp_header, s'.chan_headers)) = .ok (expDefaults, []) :=
  C3_missing_channelid_returns_partial _ "Foo" ["junk\tmore"]
    (by decide) (by decide) rfl rfl rfl (by rfl) rfl

/-! ## Claim C4: row token-count mismatch aborts the parse -/

/-- Claim C4: a value row whose token count differs from its section's
column-name count (for channel rows, the count after the source's removal
of empty tokens) aborts the entire parse with the corresponding format
error — the error value carries no parsed data, so no partial result is
returned and no field of the offending row is assigned. -/
theorem C4_count_mismatch_aborts :
    (∀ (s : PState) (l : String) (rest : List String),
      l ≠ "EXPERIMENT_HEADER" → l ≠ "CHANNEL_HEADER" →
      s.start_exp_header = false → s.exp_header_contents = true →
      (splitTab l).length ≠ s.exp_header_headings.length →
      runLines s (l :: rest) = .error .expMismatch) ∧
    (∀ (s : PState) (l : String) (rest : List String),
      l ≠ "EXPERIMENT_HEADER" → l ≠ "CHANNEL_HEADER" →
      s.start_exp_header = false → s.exp_header_contents = false →
      s.start_chan_header = false → s.chan_header_contents = true →
      l ≠ "" →
      (nonEmptyTokens l).length ≠ s.chan_header_headings.length →
      runLines s (l :: rest) = .error .chanMismatch) := by
  constructor
  · intro s l rest h1 h2 h3 h4 h5
    simp [runLines, stepLine, h1, h2, h3, h4, h5]
  · intro s l rest h1 h2 h3 h4 h5 h6 h7 h8
    simp [runLines, stepLine, chanRowStep, h1, h2, h3, h4, h5, h6, h7, h8]

/-- Claim C4, witness: a two-column experiment section fed a one-token row,
and a two-column channel section fed a three-token row. -/
theorem C4_count_mismatch_aborts_witness :
    runLines { pInit with
               exp_header_contents := true
               exp_header_headings := ["colA", "colB"] } ["x"] = .error .expMismatch ∧
    runLines { pInit with
               chan_header_contents := true
               chan_ID_index := some 0
               chan_header_headings := ["ChannelID", "colB"] } ["1\t2\t3"] =
      .error .chanMismatch :=
  ⟨C4_count_mismatch_aborts.1 _ "x" [] (by decide) (by decide) rfl rfl (by decide),
   C4_count_mismatch_aborts.2 _ "1\t2\t3" [] (by decide) (by decide) rfl rfl rfl rfl
     (by decide) (by decide)⟩

/-! ## Claim C5: boolean coercion -/

/-- Claim C5, counterexample: the boolean token "2" does not cause a format
error — `np.int8` accepts any integer literal and the boolean conversion
maps every nonzero value to `True` — so a stored `true` results, both at
the coercion and through a full parse. -/
theorem C5_counterexample :
    boolCoerce "2" = .ok true ∧
    (read_sstt_header ["CHANNEL_HEADER", "ChannelID\tIsPulsesChannel", "1\t2"]).map
      (fun p => (lookupA 1 p.2).map (fun r => r.IsPulsesChannel)) = .ok (some true) := by
  constructor <;> rfl

/-- Claim C5 (amended): boolean coercion parses the token as an integer via
`np.int8` and converts the value to a boolean: "1" maps to `true` and "0"
to `false` as claimed, but every other integer literal is also accepted —
any token whose parsed value is nonzero (e.g. "2") yields a stored `true`
— while a non-integer literal ("true", "") raises an uncaught `ValueError`
instead of storing a boolean. -/
theorem C5_bool_coercion_via_int8 :
    boolCoerce "1" = .ok true ∧ boolCoerce "0" = .ok false ∧
    boolCoerce "2" = .ok true ∧
    boolCoerce "true" = .error .pyValueError ∧
    boolCoerce "" = .error .pyValueError ∧
    (∀ tok n, pyIntParse tok = some n → -128 ≤ n → n < 128 →
      boolCoerce tok = .ok (decide (n ≠ 0))) ∧
    (∀ tok, pyIntParse tok = none → boolCoerce tok = .error .pyValueError) ∧
    (∀ r tok, assignChanField r "IsPulsesChannel" tok =
      (boolCoerce tok).map (fun b => { r with IsPulsesChannel := b })) := by
  refine ⟨by rfl, by rfl, by rfl, by rfl, by rfl, ?_, ?_, ?_⟩
  · intro tok n hp hlo hhi
    have h8 : npInt8 n = .ok n := by
      unfold npInt8
      rw [if_pos (by constructor <;> omega)]
      congr 1
      omega
    simp [boolCoerce, pyIntE, hp, h8]
  · intro tok hp
    simp [boolCoerce, pyIntE, hp]
  · intro r tok
    cases htk : boolCoerce tok <;> simp [assignChanField, htk, Except.map]

/-- Claim C5 amended, witness: the token "7" is accepted and stored as
`true`; the token "x" raises. -/
theorem C5_bool_coercion_via_int8_witness :
    boolCoerce "7" = .ok true ∧ boolCoerce "x" = .error .pyValueError :=
  ⟨C5_bool_coercion_via_int8.2.2.2.2.2.1 "7" 7 (by rfl) (by decide) (by decide),
   C5_bool_coercion_via_int8.2.2.2.2.2.2.1 "x" (by rfl)⟩

/-! ## Claim C6: empty-token handling in channel rows -/

/-- Claim C6, counterexample: a channel row with an interior empty token
("1", "", "5" against two columns) is not rejected: the source discards
every empty token, so the row parses and "5" is assigned to the second
column.  The claim predicts a format error, the interior empty token being
retained and counted (3 tokens against 2 columns). -/
theorem C6_counterexample :
    (read_sstt_header ["CHANNEL_HEADER", "ChannelID\tNumPhotons", "1\t\t5"]).map
      (fun p => (lookupA 1 p.2).map (fun r => r.NumPhotons)) = .ok (some 5) := by rfl

/-- Claim C6 (amended): the channel-row consumer discards EVERY empty
token, interior ones included, not only trailing ones: consuming a channel
value row depends only on the line's sequence of nonempty tokens, so two
row lines with the same nonempty tokens — wherever their empty tokens sit
— are consumed identically, and remaining tokens are assigned to columns
by their position among the nonempty tokens. -/
theorem C6_row_sees_only_nonempty_tokens
    (s : PState) (l₁ l₂ : String)
    (hc : s.chan_header_contents = true)
    (h3 : s.start_exp_header = false) (h4 : s.exp_header_contents = false)
    (h5 : s.start_chan_header = false)
    (e1 : l₁ ≠ "EXPERIMENT_HEADER") (e2 : l₁ ≠ "CHANNEL_HEADER") (e3 : l₁ ≠ "")
    (f1 : l₂ ≠ "EXPERIMENT_HEADER") (f2 : l₂ ≠ "CHANNEL_HEADER") (f3 : l₂ ≠ "")
    (hf : nonEmptyTokens l₁ = nonEmptyTokens l₂) :
    stepLine s l₁ = stepLine s l₂ := by
  simp [stepLine, e1, e2, e3, f1, f2, f3, h3, h4, h5, hc, hf]

/-- Claim C6 amended, witness: the rows "1\t\t5" and "1\t5" are consumed
identically against a two-column channel section. -/
theorem C6_row_sees_only_nonempty_tokens_witness :
    stepLine { pInit with
               chan_header_contents := true
               chan_ID_index := some 0
               chan_header_headings := ["ChannelID", "NumPhotons"] } "1\t\t5" =
    stepLine { pInit with
               chan_header_contents := true
               chan_ID_index := some 0
               chan_header_headings := ["ChannelID", "NumPhotons"] } "1\t5" :=
  C6_row_sees_only_nonempty_tokens _ "1\t\t5" "1\t5" rfl rfl rfl rfl
    (by decide) (by decide) (by decide) (by decide) (by decide) (by decide) (by decide)

/-! ## Claim C7: record re-initialization on every row -/

/-- Claim C7, counterexample: two channel sections both declaring
ChannelID 1; the first row sets NumPhotons = 5, the second section's
columns do not mention NumPhotons, yet the final record has NumPhotons = 0:
the second row re-initialized the record from the defaults unconditionally,
so the first row's value did not survive as the claim predicts. -/
theorem C7_counterexample :
    (read_sstt_header ["CHANNEL_HEADER", "ChannelID\tNumPhotons", "1\t5", "",
                       "CHANNEL_HEADER", "ChannelID\tFilesize", "1\t7"]).map
      (fun p => (lookupA 1 p.2).map (fun r => (r.NumPhotons, r.Filesize))) =
    .ok (some (0, 7)) := by rfl

/-- Claim C7 (amended): consuming a channel value row initializes the
record for the row's ChannelID key from the declared channel-field defaults
unconditionally, whether or not the key is already present: the record
stored for that key does not depend on the map's prior contents, so a field
assigned by an earlier row and not re-assigned by a later row carrying the
same ChannelID is reset to its default rather than surviving. -/
theorem C7_row_ignores_prior_record
    (s : PState) (m₁ m₂ : List (Int × ChanRec)) (contents : List String)
    (i : Nat) (tok : String) (k : Int)
    (hi : s.chan_ID_index = some i)
    (ht : contents[i]? = some tok)
    (hk : pyIntParse tok = some k) :
    chanOfStep (chanRowStep { s with chan_headers := m₁ } contents) k =
    chanOfStep (chanRowStep { s with chan_headers := m₂ } contents) k := by
  by_cases hlen : contents.length = s.chan_header_headings.length
  · cases ha : assignChanAll defaultChanHeader (s.chan_header_headings.zip contents) with
    | error e => simp [chanRowStep, chanOfStep, hlen, hi, ht, hk, ha]
    | ok r => simp [chanRowStep, chanOfStep, hlen, hi, ht, hk, ha, lookupA_setA_self]
  · simp [chanRowStep, chanOfStep, hlen]

/-- Claim C7 amended, witness: consuming the row with tokens "1", "7"
against columns ChannelID, Filesize stores the same record for key 1
whether the map was empty or already held a record with NumPhotons = 5. -/
theorem C7_row_ignores_prior_record_witness :
    chanOfStep (chanRowStep { pInit with
        chan_header_contents := true
        chan_ID_index := some 0
        chan_header_headings := ["ChannelID", "Filesize"]
        chan_headers := [] }
      ["1", "7"]) 1 =
    chanOfStep (chanRowStep { pInit with
        chan_header_contents := true
        chan_ID_index := some 0
        chan_header_headings := ["ChannelID", "Filesize"]
        chan_headers := [(1, { ChannelID := some 1, NumPhotons := 5 })] }
      ["1", "7"]) 1 :=
  C7_row_ignores_prior_record
    { pInit with
      chan_header_contents := true
      chan_ID_index := some 0
      chan_header_headings := ["ChannelID", "Filesize"] }
    [] [(1, { ChannelID := some 1, NumPhotons := 5 })] ["1", "7"] 0 "1" 1 rfl rfl rfl

/-! ## Claim C9: quote stripping -/

/-- Claim C9, counterexample: an interior double-quote is not preserved:
the Filename token a"b is stored as ab — the source removes every quote
character, not only the surrounding ones. -/
theorem C9_counterexample :
    stripQuotes "a\"b" = "ab" ∧
    (read_sstt_header ["CHANNEL_HEADER", "ChannelID\tFilename", "1\ta\"b"]).map
      (fun p => (lookupA 1 p.2).map (fun r => r.Filename)) = .ok (some "ab") := by
  constructor <;> rfl

/-- Claim C9 (amended): string coercion of a channel-header field removes
every double-quote character of the token — it acts as a character filter —
so surrounding quotes are stripped as claimed but interior quote characters
are removed as well, not preserved. -/
theorem C9_str_coercion_removes_all_quotes :
    (∀ t : String, (stripQuotes t).data = t.data.filter (fun c => c ≠ '"')) ∧
    (∀ r t, assignChanField r "Filename" t = .ok { r with Filename := stripQuotes t }) ∧
    stripQuotes "\"xy\"" = "xy" := by
  refine ⟨?_, ?_, by rfl⟩
  · intro t
    show removeQ t.data = _
    induction t.data with
    | nil => rfl
    | cons c cs ih =>
      by_cases hc : c = '"' <;> simp [removeQ, hc, ih]
  · intro r t
    rfl

/-! ## Claim C10: the ChannelID field of every stored record equals its key -/

/-- Number of columns literally named "ChannelID". -/
def countCID : List String → Nat
  | [] => 0
  | h :: t => (if h = "ChannelID" then 1 else 0) + countCID t

/-- The `ChannelID` value left by a sequence of (column name, token)
assignments, starting from a given field value: the last "ChannelID"
column's parsed token wins. -/
def lastCID : List (String × String) → Option Int → Option Int
  | [], d => d
  | (n, t) :: rest, d => lastCID rest (if n = "ChannelID" then pyIntParse t else d)

theorem findCID_getElem (hs : List String) (i : Nat) (h : findCID hs = some i) :
    hs[i]? = some "ChannelID" := by
  induction hs generalizing i with
  | nil => cases h
  | cons hd tl ih =>
    by_cases hh : hd = "ChannelID"
    · rw [findCID, if_pos hh] at h
      injection h with h
      subst h
      simp [hh]
    · rw [findCID, if_neg hh] at h
      cases hf : findCID tl with
      | none => rw [hf] at h; cases h
      | some j =>
        rw [hf] at h
        injection h with h
        subst h
        simpa using ih j hf

theorem countCID_pos_findCID (hs : List String) (h : 0 < countCID hs) :
    ∃ i, findCID hs = some i := by
  induction hs with
  | nil => cases h
  | cons hd tl ih =>
    by_cases hh : hd = "ChannelID"
    · exact ⟨0, by rw [findCID, if_pos hh]⟩
    · rw [countCID, if_neg hh] at h
      obtain ⟨j, hj⟩ := ih (by omega)
      exact ⟨j + 1, by rw [findCID, if_neg hh, hj]; rfl⟩

theorem lastCID_zip_of_no_cid (hs : List String) (hc : countCID hs = 0) :
    ∀ (cs : List String) (d : Option Int), lastCID (hs.zip cs) d = d := by
  induction hs with
  | nil => intro cs d; rfl
  | cons hd tl ih =>
    intro cs d
    rw [countCID] at hc
    by_cases hh : hd = "ChannelID"
    · rw [if_pos hh] at hc; omega
    · rw [if_neg hh] at hc
      cases cs with
      | nil => rfl
      | cons c cs' =>
        show lastCID ((hd, c) :: tl.zip cs') d = d
        rw [lastCID, if_neg hh]
        exact ih (by omega) cs' d

theorem lastCID_zip (hs cs : List String) (i : Nat) (tok : String) (d : Option Int)
    (hcount : countCID hs = 1) (hfind : findCID hs = some i)
    (hlen : cs.length = hs.length) (htok : cs[i]? = some tok) :
    lastCID (hs.zip cs) d = pyIntParse tok := by
  induction hs generalizing cs i d with
  | nil => cases hfind
  | cons hd tl ih =>
    cases cs with
    | nil => simp at hlen
    | cons c cs' =>
      by_cases hh : hd = "ChannelID"
      · rw [findCID, if_pos hh] at hfind
        injection hfind with hfind
        subst hfind
        simp only [List.getElem?_cons_zero] at htok
        injection htok with htok
        rw [countCID, if_pos hh] at hcount
        show lastCID ((hd, c) :: tl.zip cs') d = pyIntParse tok
        rw [lastCID, if_pos hh, htok]
        exact lastCID_zip_of_no_cid tl (by omega) cs' _
      · rw [findCID, if_neg hh] at hfind
        cases hf : findCID tl with
        | none => rw [hf] at hfind; cases hfind
        | some j =>
          rw [hf] at hfind
          injection hfind with hfind
          subst hfind
          rw [countCID, if_neg hh] at hcount
          simp only [List.getElem?_cons_succ] at htok
          show lastCID ((hd, c) :: tl.zip cs') d = pyIntParse tok
          rw [lastCID, if_neg hh]
          exact ih cs' j _ (by omega) hf (by simpa using hlen) htok

theorem assignChanField_cid (r : ChanRec) (n t : String) (r' : ChanRec)
    (h : assignChanField r n t = .ok r') :
    r'.ChannelID = if n = "ChannelID" then pyIntParse t else r.ChannelID := by
  unfold assignChanField at h
  by_cases h1 : n = "ChannelID"
  · rw [if_pos h1] at h
    rw [if_pos h1]
    unfold intCoerce pyIntE at h
    cases hp : pyIntParse t <;> rw [hp] at h
    · cases h
    · simp only [Except.ok.injEq] at h
      subst h
      rfl
  rw [if_neg h1] at h
  rw [if_neg h1]
  by_cases h2 : n = "Filename"
  · rw [if_pos h2] at h
    injection h with h
    subst h
    rfl
  rw [if_neg h2] at h
  by_cases h3 : n = "NumPhotons"
  · rw [if_pos h3] at h
    cases hc : int64Coerce t <;> simp only [hc, Except.ok.injEq] at h
    · exact Except.noConfusion h
    · subst h
      rfl
  rw [if_neg h3] at h
  by_cases h4 : n = "NumOverflows"
  · rw [if_pos h4] at h
    cases hc : int64Coerce t <;> simp only [hc, Except.ok.injEq] at h
    · exact Except.noConfusion h
    · subst h
      rfl
  rw [if_neg h4] at h
  by_cases h5 : n = "Filesize"
  · rw [if_pos h5] at h
    cases hc : int64Coerce t <;> simp only [hc, Except.ok.injEq] at h
    · exact Except.noConfusion h
    · subst h
      rfl
  rw [if_neg h5] at h
  by_cases h6 : n = "HardwareSyncDivider"
  · rw [if_pos h6] at h
    cases hc : int64Coerce t <;> simp only [hc, Except.ok.injEq] at h
    · exact Except.noConfusion h
    · subst h
      rfl
  rw [if_neg h6] at h
  by_cases h7 : n = "AdditionalSyncDivider"
  · rw [if_pos h7] at h
    cases hc : int64Coerce t <;> simp only [hc, Except.ok.injEq] at h
    · exact Except.noConfusion h
    · subst h
      rfl
  rw [if_neg h7] at h
  by_cases h8 : n = "TotalSyncDivider"
  · rw [if_pos h8] at h
    cases hc : int64Coerce t <;> simp only [hc, Except.ok.injEq] at h
    · exact Except.noConfusion h
    · subst h
      rfl
  rw [if_neg h8] at h
  by_cases h9 : n = "IsPulsesChannel"
  · rw [if_pos h9] at h
    cases hc : boolCoerce t <;> simp only [hc, Except.ok.injEq] at h
    · exact Except.noConfusion h
    · subst h
      rfl
  rw [if_neg h9] at h
  by_cases h10 : n = "HasPulsesChannel"
  · rw [if_pos h10] at h
    cases hc : boolCoerce t <;> simp only [hc, Except.ok.injEq] at h
    · exact Except.noConfusion h
    · subst h
      rfl
  rw [if_neg h10] at h
  by_cases h11 : n = "CorrespondingPulsesChannel"
  · rw [if_pos h11] at h
    cases hc : int32Coerce t <;> simp only [hc, Except.ok.injEq] at h
    · exact Except.noConfusion h
    · subst h
      rfl
  rw [if_neg h11] at h
  by_cases h12 : n = "HasMicrotimes"
  · rw [if_pos h12] at h
    cases hc : boolCoerce t <;> simp only [hc, Except.ok.injEq] at h
    · exact Except.noConfusion h
    · subst h
      rfl
  rw [if_neg h12] at h
  by_cases h13 : n = "MicroDelayTime"
  · rw [if_pos h13] at h
    cases hc : int64Coerce t <;> simp only [hc, Except.ok.injEq] at h
    · exact Except.noConfusion h
    · subst h
      rfl
  rw [if_neg h13] at h
  injection h with h
  subst h
  rfl

theorem assignChanAll_cid (pairs : List (String × String)) (r r' : ChanRec)
    (h : assignChanAll r pairs = .ok r') :
    r'.ChannelID = lastCID pairs r.ChannelID := by
  induction pairs generalizing r with
  | nil =>
    simp only [assignChanAll, Except.ok.injEq] at h
    subst h
    rfl
  | cons p rest ih =>
    obtain ⟨n, t⟩ := p
    rw [assignChanAll] at h
    cases hf : assignChanField r n t with
    | error e => rw [hf] at h; cases h
    | ok r1 =>
      rw [hf] at h
      rw [lastCID, ← assignChanField_cid r n t r1 hf]
      exact ih r1 h

/-- The channel-map property the claim asserts: every stored record's
`ChannelID` field equals its key. -/
def MapCID (m : List (Int × ChanRec)) : Prop :=
  ∀ k r, lookupA k m = some r → r.ChannelID = some k

/-- Invariant carried along the parse: the map property, and — whenever
channel rows are being consumed — the current channel column names contain
exactly one "ChannelID" column and the stored index points at it. -/
def PInv (s : PState) : Prop :=
  MapCID s.chan_headers ∧
  (s.chan_header_contents = true →
    countCID s.chan_header_headings = 1 ∧
    ∃ i, s.chan_ID_index = some i ∧ findCID s.chan_header_headings = some i)

theorem chanRowStep_next_fields (s : PState) (c : List String) (s' : PState)
    (h : chanRowStep s c = .next s') :
    s'.chan_header_contents = s.chan_header_contents ∧
    s'.chan_header_headings = s.chan_header_headings ∧
    s'.chan_ID_index = s.chan_ID_index ∧
    s'.seenChanHeadings = s.seenChanHeadings := by
  unfold chanRowStep at h
  repeat' split at h
  all_goals
    first
    | (injection h with h; subst h; exact ⟨rfl, rfl, rfl, rfl⟩)
    | cases h

theorem chanRowStep_no_stop (s : PState) (c : List String) (s' : PState) :
    chanRowStep s c ≠ .stop s' := by
  intro h
  unfold chanRowStep at h
  repeat' split at h
  all_goals cases h

theorem chanRowStep_next_map (s : PState) (c : List String) (s' : PState)
    (h : chanRowStep s c = .next s')
    (hmap : MapCID s.chan_headers)
    (hcount : countCID s.chan_header_headings = 1)
    (i₀ : Nat) (hidx : s.chan_ID_index = some i₀)
    (hfind : findCID s.chan_header_headings = some i₀) :
    MapCID s'.chan_headers := by
  unfold chanRowStep at h
  split at h
  · cases h
  · rename_i hlen
    have hlen' : c.length = s.chan_header_headings.length := not_not.mp hlen
    split at h
    · cases h
    · rename_i i hi
      rw [hidx] at hi
      injection hi with hi
      split at h
      · cases h
      · rename_i tok ht
        split at h
        · cases h
        · rename_i k hk
          split at h
          · cases h
          · rename_i r ha
            injection h with h
            subst h
            intro k' r' hl
            show r'.ChannelID = some k'
            by_cases hkk : k' = k
            · subst hkk
              simp only [lookupA_setA_self] at hl
              injection hl with hl
              subst hl
              have hcid := assignChanAll_cid _ _ _ ha
              rw [lastCID_zip s.chan_header_headings c i₀ tok
                defaultChanHeader.ChannelID hcount hfind hlen' (hi ▸ ht)] at hcid
              rw [hcid, hk]
            · rw [lookupA_setA_ne k' k r s.chan_headers (fun hh => hkk hh.symm)] at hl
              exact hmap k' r' hl

theorem stepLine_seen_next (s : PState) (l : String) (s' : PState)
    (h : stepLine s l = .next s') :
    ∀ x, x ∈ s.seenChanHeadings → x ∈ s'.seenChanHeadings := by
  unfold stepLine at h
  repeat' split at h
  all_goals
    first
    | (injection h with h; subst h; intro x hx; simp [List.mem_append, hx])
    | cases h
    | (intro x hx
       rw [(chanRowStep_next_fields _ _ _ h).2.2.2]
       exact hx)

theorem stepLine_seen_stop (s : PState) (l : String) (s' : PState)
    (h : stepLine s l = .stop s') :
    ∀ x, x ∈ s.seenChanHeadings → x ∈ s'.seenChanHeadings := by
  unfold stepLine at h
  repeat' split at h
  all_goals
    first
    | (injection h with h; subst h; intro x hx; simp [List.mem_append, hx])
    | cases h
    | exact absurd h (chanRowStep_no_stop _ _ _)

theorem runLines_seen (ls : List String) (sF : PState) :
    ∀ s, runLines s ls = .ok sF →
      ∀ x, x ∈ s.seenChanHeadings → x ∈ sF.seenChanHeadings := by
  induction ls with
  | nil =>
    intro s h x hx
    rw [runLines] at h
    injection h with h
    subst h
    exact hx
  | cons l ls ih =>
    intro s h x hx
    rw [runLines] at h
    cases hst : stepLine s l with
    | next s1 =>
      rw [hst] at h
      exact ih s1 h x (stepLine_seen_next s l s1 hst x hx)
    | stop s1 =>
      rw [hst] at h
      injection h with h
      subst h
      exact stepLine_seen_stop s l s1 hst x hx
    | err e =>
      rw [hst] at h
      exact Except.noConfusion h

theorem stepLine_next_inv (s : PState) (l : String) (s' : PState)
    (h : stepLine s l = .next s')
    (hinv : PInv s)
    (hgood : ∀ hs, hs ∈ s'.seenChanHeadings → countCID hs = 1) :
    PInv s' := by
  obtain ⟨hmap, hhead⟩ := hinv
  unfold stepLine at h
  split at h
  · injection h with h
    subst h
    exact ⟨hmap, hhead⟩
  split at h
  · injection h with h
    subst h
    exact ⟨hmap, hhead⟩
  split at h
  · injection h with h
    subst h
    exact ⟨hmap, hhead⟩
  split at h
  · split at h
    · cases h
    · injection h with h
      subst h
      exact ⟨hmap, hhead⟩
  split at h
  · split at h
    · cases h
    · injection h with h
      subst h
      refine ⟨hmap, fun _ => ?_⟩
      have hmem : splitTab l ∈ s.seenChanHeadings ++ [splitTab l] := by simp
      have hcnt : countCID (splitTab l) = 1 := hgood _ hmem
      refine ⟨hcnt, ?_⟩
      obtain ⟨j, hj⟩ := countCID_pos_findCID (splitTab l) (by omega)
      exact ⟨j, by simp [hj], hj⟩
  split at h
  · rename_i hcc
    split at h
    · injection h with h
      subst h
      exact ⟨hmap, fun hc => Bool.noConfusion hc⟩
    · obtain ⟨hcnt, i, hidx, hfind⟩ := hhead hcc
      have hfields := chanRowStep_next_fields _ _ _ h
      have hm := chanRowStep_next_map _ _ _ h hmap hcnt i hidx hfind
      refine ⟨hm, fun _ => ?_⟩
      rw [hfields.2.1, hfields.2.2.1]
      exact ⟨hcnt, i, hidx, hfind⟩
  injection h with h
  subst h
  exact ⟨hmap, hhead⟩

theorem stepLine_stop_map (s : PState) (l : String) (s' : PState)
    (h : stepLine s l = .stop s') (hmap : MapCID s.chan_headers) :
    MapCID s'.chan_headers := by
  unfold stepLine at h
  repeat' split at h
  all_goals
    first
    | (injection h with h; subst h; exact hmap)
    | exact absurd h (chanRowStep_no_stop _ _ _)
    | cases h

theorem runLines_inv (ls : List String) (sF : PState)
    (hgood : ∀ hs, hs ∈ sF.seenChanHeadings → countCID hs = 1) :
    ∀ s, runLines s ls = .ok sF → PInv s → MapCID sF.chan_headers := by
  induction ls with
  | nil =>
    intro s h hinv
    rw [runLines] at h
    injection h with h
    subst h
    exact hinv.1
  | cons l ls ih =>
    intro s h hinv
    rw [runLines] at h
    cases hst : stepLine s l with
    | next s1 =>
      rw [hst] at h
      have h1 : ∀ hs, hs ∈ s1.seenChanHeadings → countCID hs = 1 :=
        fun hs hmem => hgood hs (runLines_seen ls sF s1 h hs hmem)
      exact ih s1 h (stepLine_next_inv s l s1 hst hinv h1)
    | stop s1 =>
      rw [hst] at h
      injection h with h
      subst h
      exact stepLine_stop_map s l s1 hst hinv.1
    | err e =>
      rw [hst] at h
      exact Except.noConfusion h

/-- Claim C10 (amended): for every successfully returned channel mapping of
`read_sstt_header`, PROVIDED every consumed channel column-name line
contains exactly one column named "ChannelID", every key's record has a
`ChannelID` field equal to that key (the integer parsed from the token at
the `ChannelID` column index of the row that created or last updated the
record).  Without the proviso the property fails — see the
duplicate-column counterexample. -/
theorem C10_channelid_field_matches_key
    (lines : List String) (s : PState)
    (hrun : runLines pInit lines = .ok s)
    (hgood : ∀ hs, hs ∈ s.seenChanHeadings → countCID hs = 1) :
    read_sstt_header lines = .ok (s.exp_header, s.chan_headers) ∧
    ∀ k r, lookupA k s.chan_headers = some r → r.ChannelID = some k := by
  constructor
  · unfold read_sstt_header
    rw [hrun]
  · exact runLines_inv lines s hgood pInit hrun
      ⟨fun k r hl => Option.noConfusion hl, fun hc => Bool.noConfusion hc⟩

/-- Claim C10 amended, witness: a single well-formed channel section with
one `ChannelID` column; the record stored for key 3 carries
`ChannelID = some 3`. -/
theorem C10_channelid_field_matches_key_witness :
    read_sstt_header ["CHANNEL_HEADER", "ChannelID\tNumPhotons", "3\t9"] =
      .ok (expDefaults, [(3, { ChannelID := some 3, NumPhotons := 9 })]) ∧
    ({ ChannelID := some 3, NumPhotons := 9 } : ChanRec).ChannelID = some 3 :=
  ⟨(C10_channelid_field_matches_key ["CHANNEL_HEADER", "ChannelID\tNumPhotons", "3\t9"]
      { chan_header_contents := true
        chan_header_headings := ["ChannelID", "NumPhotons"]
        chan_ID_index := some 0
        chan_headers := [(3, { ChannelID := some 3, NumPhotons := 9 })]
        seenChanHeadings := [["ChannelID", "NumPhotons"]] }
      (by rfl) (by decide)).1,
   (C10_channelid_field_matches_key ["CHANNEL_HEADER", "ChannelID\tNumPhotons", "3\t9"]
      { chan_header_contents := true
        chan_header_headings := ["ChannelID", "NumPhotons"]
        chan_ID_index := some 0
        chan_headers := [(3, { ChannelID := some 3, NumPhotons := 9 })]
        seenChanHeadings := [["ChannelID", "NumPhotons"]] }
      (by rfl) (by decide)).2 3 _ rfl⟩

/-- Claim C10, counterexample: a channel column-name line containing TWO
columns named `ChannelID` with the row tokens "1" and "2": the record is
keyed by the first (key 1), but the assignment loop overwrites the
`ChannelID` field with each occurrence in order, so the stored field is 2,
not the key. -/
theorem C10_counterexample :
    (read_sstt_header ["CHANNEL_HEADER", "ChannelID\tChannelID", "1\t2"]).map
      (fun p => (lookupA 1 p.2).map (fun r => r.ChannelID)) = .ok (some (some 2)) := by rfl

/-! ## Key uniqueness of the parsed channel mapping -/

theorem mem_keys_setA {κ α : Type} [DecidableEq κ] (a k : κ) (v : α) (m : List (κ × α)) :
    a ∈ (setA k v m).map Prod.fst ↔ a ∈ m.map Prod.fst ∨ a = k := by
  induction m with
  | nil => simp [setA]
  | cons p rest ih =>
    obtain ⟨k₀, v₀⟩ := p
    by_cases h : k₀ = k
    · subst h
      simp [setA]
      tauto
    · simp [setA, h, ih]
      tauto

theorem nodup_keys_setA {κ α : Type} [DecidableEq κ] (k : κ) (v : α) (m : List (κ × α))
    (hnd : (m.map Prod.fst).Nodup) : ((setA k v m).map Prod.fst).Nodup := by
  induction m with
  | nil => simp [setA]
  | cons p rest ih =>
    obtain ⟨k₀, v₀⟩ := p
    simp only [List.map_cons, List.nodup_cons] at hnd
    by_cases h : k₀ = k
    · subst h
      rw [setA, if_pos rfl]
      simpa using hnd
    · simp only [setA, if_neg h, List.map_cons, List.nodup_cons]
      constructor
      · rw [mem_keys_setA]
        rintro (hm | he)
        · exact hnd.1 hm
        · exact h he
      · exact ih hnd.2

theorem chanRowStep_next_chans (s : PState) (c : List String) (s' : PState)
    (h : chanRowStep s c = .next s') :
    ∃ k r, s'.chan_headers = setA k r s.chan_headers := by
  unfold chanRowStep at h
  repeat' split at h
  all_goals
    first
    | (injection h with h; subst h; exact ⟨_, _, rfl⟩)
    | cases h

theorem stepLine_next_chans (s : PState) (l : String) (s' : PState)
    (h : stepLine s l = .next s') :
    s'.chan_headers = s.chan_headers ∨ ∃ k r, s'.chan_headers = setA k r s.chan_headers := by
  unfold stepLine at h
  repeat' split at h
  all_goals
    first
    | (injection h with h; subst h; exact Or.inl rfl)
    | cases h
    | exact Or.inr (chanRowStep_next_chans _ _ _ h)

theorem stepLine_stop_chans (s : PState) (l : String) (s' : PState)
    (h : stepLine s l = .stop s') :
    s'.chan_headers = s.chan_headers := by
  unfold stepLine at h
  repeat' split at h
  all_goals
    first
    | (injection h with h; subst h; rfl)
    | exact absurd h (chanRowStep_no_stop _ _ _)
    | cases h

theorem runLines_nodup (ls : List String) (sF : PState) :
    ∀ s, runLines s ls = .ok sF → (s.chan_headers.map Prod.fst).Nodup →
      (sF.chan_headers.map Prod.fst).Nodup := by
  induction ls with
  | nil =>
    intro s h hnd
    rw [runLines] at h
    injection h with h
    subst h
    exact hnd
  | cons l ls ih =>
    intro s h hnd
    rw [runLines] at h
    cases hst : stepLine s l with
    | next s1 =>
      rw [hst] at h
      refine ih s1 h ?_
      rcases stepLine_next_chans s l s1 hst with he | ⟨k, r, he⟩
      · rw [he]; exact hnd
      · rw [he]; exact nodup_keys_setA k r s.chan_headers hnd
    | stop s1 =>
      rw [hst] at h
      injection h with h
      subst h
      rw [stepLine_stop_chans s l s1 hst]
      exact hnd
    | err e =>
      rw [hst] at h
      exact Except.noConfusion h

theorem read_sstt_header_nodup (lines : List String) (e : List (String × Option String))
    (chans : List (Int × ChanRec)) (h : read_sstt_header lines = .ok (e, chans)) :
    (chans.map Prod.fst).Nodup := by
  unfold read_sstt_header at h
  cases hr : runLines pInit lines with
  | ok s =>
    rw [hr] at h
    injection h with h
    have h2 : s.chan_headers = chans := congrArg Prod.snd h
    rw [← h2]
    exact runLines_nodup lines s pInit hr (by simp [pInit])
  | error e2 =>
    rw [hr] at h
    exact Except.noConfusion h

/-! ## Dataset importer and derivation pass (`import_data`)

`read_sstt_data` (the binary per-channel decoder) is an external
collaborator implemented in the C++ extension; `import_data` is therefore
parametrized over a total reader `readData` returning the triple
(macro sequence, micro sequence, overflow count) for a channel id. -/

/-- Per-channel event data: the `data[chan]` dict of the source, holding
the `macro` and `micro` timestamp sequences. -/
structure TSData : Type where
  macroT : List Int
  micro : List Int
deriving Repr, DecidableEq

/-- Errors of `import_data`: a failed header parse (`read_sstt_header`
returning the `None` sentinel makes the caller's tuple unpacking raise), a
missing dict key during the derivation pass (uncaught `KeyError`),
`round()` applied to the NaN/inf produced by averaging an empty difference
array or dividing by a zero divider (uncaught `ValueError`/`OverflowError`),
or `np.int64` applied to a rounded value outside the int64 range (uncaught
`OverflowError`). -/
inductive IErr : Type
  | parseFail (e : PErr)
  | keyError
  | averageUndefined
  | overflowError
deriving Repr, DecidableEq

/-- The most recent reference edge at or before `t` (edges are ascending,
so it is the last edge that is ≤ t). -/
def lastEdgeLE (edges : List Int) (t : Int) : Option Int :=
  (edges.filter (fun e => e ≤ t)).getLast?

/-- Modelled from the spec: `gen_micro_times` is implemented in the
repository's C++ extension `_libtimetag` (src/algos.cpp), which is not
under src/ — only its call site is.  Spec §4.3: "For an event timestamp
`t`, the microtime is the signed offset of `t` from the most recent
reference edge at or before `t`"; the result is index-aligned with the
event sequence.  The divider parameter is carried as at the call site; the
spec's offset formula does not consume it.  An event preceding the first
edge has no defined preceding edge (the spec leaves this boundary open,
§9); the model uses the offset from 0 there. -/
def gen_micro_times (edges : List Int) (events : List Int) (divider : Int) : List Int :=
  events.map (fun t => t - (lastEdgeLE edges t).getD 0)

theorem gen_micro_times_length (edges events : List Int) (divider : Int) :
    (gen_micro_times edges events divider).length = events.length :=
  List.length_map events _

/-- Two's-complement wrap into the signed 64-bit range: the value a numpy
int64 slot holds after an arithmetic operation whose exact result is `n`. -/
def wrap64 (n : Int) : Int :=
  (n + 2 ^ 63) % 2 ^ 64 - 2 ^ 63

/-- Consecutive differences `macro[1:] - macro[:-1]` (numpy elementwise
subtraction of the shifted int64 views): each difference silently wraps
two's-complement into the int64 range. -/
def diffsOf (ms : List Int) : List Int :=
  List.zipWith (fun a b => wrap64 (a - b)) ms.tail ms

/-- The consecutive differences as the spec reads them: exact integer
subtraction with no int64 wrap.  Stated only for comparison against
`diffsOf`, the source's wrapping computation. -/
def exactDiffs (ms : List Int) : List Int :=
  List.zipWith (fun a b => a - b) ms.tail ms

/-- Round-half-to-even on an exact rational: the rounding of Python's
`round` applied to the average; the float64 arithmetic of `np.average` and
the two divisions are modelled exactly over ℚ. -/
def roundHalfEven (x : ℚ) : Int :=
  if x - ⌊x⌋ < 1/2 then ⌊x⌋
  else if 1/2 < x - ⌊x⌋ then ⌊x⌋ + 1
  else if ⌊x⌋ % 2 = 0 then ⌊x⌋ else ⌊x⌋ + 1

/-- The quantity the spec names: the exact average of the exact (unwrapped)
consecutive differences, divided by the divider, over ℚ. -/
def exactAvgPeriod (ms : List Int) (divider : Int) : ℚ :=
  ((exactDiffs ms).sum : ℚ) / ((exactDiffs ms).length : ℚ) / (divider : ℚ)

/-- Ascending (non-decreasing) check on a timestamp list. -/
def ascendingB : List Int → Bool
  | [] => true
  | [_] => true
  | a :: b :: tl => a ≤ b && ascendingB (b :: tl)

/-- Round-half-to-even of the rational `S / D` for `0 < D`, computed with
integer arithmetic (for a positive divisor, `Int` `/` and `%` are floor
division and its nonnegative remainder). -/
def roundHalfEvenPos (S D : Int) : Int :=
  if 2 * (S % D) < D then S / D
  else if D < 2 * (S % D) then S / D + 1
  else if (S / D) % 2 = 0 then S / D else S / D + 1

/-- Round-half-to-even of the rational `S / D` for any `D ≠ 0`. -/
def roundHalfEvenInt (S D : Int) : Int :=
  if D < 0 then roundHalfEvenPos (-S) (-D) else roundHalfEvenPos S D

/-- The integer `round(np.average(macro[1:] - macro[:-1]) / divider)`
produces: round-half-even of `sum(diffs) / (len(diffs) * divider)`, the
two divisions composed into one exact rational.  The float64 arithmetic of
`np.average` and the divisions is modelled exactly over the rationals
(`roundHalfEvenInt S D` rounds the exact quotient `S / D`). -/
def pulseRound (ts : TSData) (divider : Int) : Int :=
  roundHalfEvenInt (diffsOf ts.macroT).sum (((diffsOf ts.macroT).length : Int) * divider)

/-- State threaded through the derivation loop: the channel-header dict
and the data dict, both mutated in place by the source. -/
structure DState : Type where
  chans : List (Int × ChanRec)
  dataM : List (Int × TSData)
deriving Repr, DecidableEq

/-- The lazy recount: `if ch['NumPhotons'] == 0: ch['NumPhotons'] =
len(data[chan]['macro'])`. -/
def recountNP (ch : ChanRec) (ts : TSData) : ChanRec :=
  if ch.NumPhotons = 0 then { ch with NumPhotons := (ts.macroT.length : Int) } else ch

/-- The microtime-generation statement for one channel: when the channel
has a pulses channel, lacks microtimes, and has photons (after the
recount), overwrite `data[chan]['micro']` with
`gen_micro_times(data[r]['macro'], data[chan]['macro'],
chan_header[r]['TotalSyncDivider'])` where `r` is the corresponding pulses
channel; a missing key raises. -/
def microPass (st : DState) (c : Int) (ch1 : ChanRec) (ts : TSData)
    (chans1 : List (Int × ChanRec)) : Except IErr (List (Int × TSData)) :=
  if ch1.HasPulsesChannel = true ∧ ch1.HasMicrotimes = false ∧ 0 < ch1.NumPhotons then
    match ch1.CorrespondingPulsesChannel with
    | none => .error .keyError
    | some rid =>
      match lookupA rid st.dataM, lookupA rid chans1 with
      | some tsr, some chr =>
        .ok (setA c { ts with micro := gen_micro_times tsr.macroT ts.macroT chr.TotalSyncDivider }
          st.dataM)
      | _, _ => .error .keyError
  else .ok st.dataM

/-- The `PulsePeriod` assignment for one channel: pulses channels get the
rounded divider-corrected average of the consecutive int64-wrapped
differences, raising when the average is NaN — fewer than two timestamps —
or the division yields inf (zero divider), and raising again when
`np.int64` is applied to a rounded value outside the int64 range; all
other channels get 0. -/
def pulsePass (ch1 : ChanRec) (ts : TSData) : Except IErr ChanRec :=
  if ch1.IsPulsesChannel = true then
    if (diffsOf ts.macroT).length = 0 ∨ ch1.TotalSyncDivider = 0 then .error .averageUndefined
    else if pulseRound ts ch1.TotalSyncDivider < -(2 ^ 63) ∨
        2 ^ 63 ≤ pulseRound ts ch1.TotalSyncDivider then .error .overflowError
    else .ok { ch1 with PulsePeriod := some (pulseRound ts ch1.TotalSyncDivider) }
  else .ok { ch1 with PulsePeriod := some 0 }

/-- One iteration of the derivation loop of `import_data` for channel `c`:
lazy `NumPhotons` recount (written back into the dict), microtime
generation when applicable, and the `PulsePeriod` assignment. -/
def deriveStep (st : DState) (c : Int) : Except IErr DState :=
  match lookupA c st.chans, lookupA c st.dataM with
  | some ch, some ts =>
    match microPass st c (recountNP ch ts) ts (setA c (recountNP ch ts) st.chans) with
    | .error e => .error e
    | .ok data1 =>
      match pulsePass (recountNP ch ts) ts with
      | .error e => .error e
      | .ok ch2 => .ok ⟨setA c ch2 (setA c (recountNP ch ts) st.chans), data1⟩
  | _, _ => .error .keyError

/-- The derivation loop over every channel id, in dict order. -/
def derivePass (chans : List (Int × ChanRec)) (dataM : List (Int × TSData)) :
    Except IErr DState :=
  List.foldlM deriveStep ⟨chans, dataM⟩ (chans.map Prod.fst)

/-- Embedding of `import_data`: parse the header, read each channel's data
through the external reader, run the derivation pass, and return the
triple. -/
def import_data (lines : List String) (readData : Int → List Int × List Int × Int) :
    Except IErr
      (List (String × Option String) × List (Int × ChanRec) × List (Int × TSData)) :=
  match read_sstt_header lines with
  | .error e => .error (.parseFail e)
  | .ok (exph, chans) =>
    match derivePass chans (chans.map (fun p => (p.1, ⟨(readData p.1).1, (readData p.1).2.1⟩))) with
    | .error e => .error e
    | .ok st => .ok (exph, st.chans, st.dataM)

/-! ## Characterization of one derivation step -/

theorem recountNP_TSD (ch : ChanRec) (ts : TSData) :
    (recountNP ch ts).TotalSyncDivider = ch.TotalSyncDivider := by
  unfold recountNP
  split <;> rfl

theorem recountNP_flags (ch : ChanRec) (ts : TSData) :
    (recountNP ch ts).IsPulsesChannel = ch.IsPulsesChannel ∧
    (recountNP ch ts).HasPulsesChannel = ch.HasPulsesChannel ∧
    (recountNP ch ts).HasMicrotimes = ch.HasMicrotimes ∧
    (recountNP ch ts).CorrespondingPulsesChannel = ch.CorrespondingPulsesChannel := by
  unfold recountNP
  split <;> exact ⟨rfl, rfl, rfl, rfl⟩

theorem recountNP_NP (ch : ChanRec) (ts : TSData) :
    (recountNP ch ts).NumPhotons =
      (if ch.NumPhotons = 0 then (ts.macroT.length : Int) else ch.NumPhotons) := by
  unfold recountNP
  split <;> rfl

theorem microPass_char (st : DState) (c : Int) (ch1 : ChanRec) (ts : TSData)
    (chans1 : List (Int × ChanRec)) (d1 : List (Int × TSData))
    (h : microPass st c ch1 ts chans1 = .ok d1) :
    (¬(ch1.HasPulsesChannel = true ∧ ch1.HasMicrotimes = false ∧ 0 < ch1.NumPhotons) ∧
      d1 = st.dataM) ∨
    ((ch1.HasPulsesChannel = true ∧ ch1.HasMicrotimes = false ∧ 0 < ch1.NumPhotons) ∧
      ∃ rid tsr chr, ch1.CorrespondingPulsesChannel = some rid ∧
        lookupA rid st.dataM = some tsr ∧ lookupA rid chans1 = some chr ∧
        d1 = setA c { ts with micro := gen_micro_times tsr.macroT ts.macroT chr.TotalSyncDivider }
          st.dataM) := by
  unfold microPass at h
  split at h
  · rename_i hcond
    split at h
    · cases h
    · rename_i rid hrid
      split at h
      · rename_i tsr chr htsr hchr
        injection h with h
        subst h
        exact Or.inr ⟨hcond, rid, tsr, chr, hrid, htsr, hchr, rfl⟩
      · cases h
  · rename_i hcond
    injection h with h
    subst h
    exact Or.inl ⟨hcond, rfl⟩

theorem pulsePass_char (ch1 : ChanRec) (ts : TSData) (ch2 : ChanRec)
    (h : pulsePass ch1 ts = .ok ch2) :
    (ch1.IsPulsesChannel = true ∧ (diffsOf ts.macroT).length ≠ 0 ∧
      ch1.TotalSyncDivider ≠ 0 ∧
      -(2 ^ 63) ≤ pulseRound ts ch1.TotalSyncDivider ∧
      pulseRound ts ch1.TotalSyncDivider < 2 ^ 63 ∧
      ch2 = { ch1 with PulsePeriod := some (pulseRound ts ch1.TotalSyncDivider) }) ∨
    (ch1.IsPulsesChannel = false ∧ ch2 = { ch1 with PulsePeriod := some 0 }) := by
  unfold pulsePass at h
  split at h
  · rename_i hpul
    split at h
    · cases h
    · rename_i hcond
      split at h
      · cases h
      · rename_i hover
        injection h with h
        subst h
        push_neg at hover
        exact Or.inl ⟨hpul, fun h0 => hcond (Or.inl h0), fun h0 => hcond (Or.inr h0),
          hover.1, hover.2, rfl⟩
  · rename_i hpul
    injection h with h
    subst h
    refine Or.inr ⟨?_, rfl⟩
    cases hb : ch1.IsPulsesChannel
    · rfl
    · exact absurd hb hpul

theorem deriveStep_char (st : DState) (c : Int) (ch : ChanRec) (ts : TSData) (st' : DState)
    (hch : lookupA c st.chans = some ch) (hts : lookupA c st.dataM = some ts)
    (h : deriveStep st c = .ok st') :
    ∃ ch2 d1,
      st'.chans = setA c ch2 (setA c (recountNP ch ts) st.chans) ∧ st'.dataM = d1 ∧
      microPass st c (recountNP ch ts) ts (setA c (recountNP ch ts) st.chans) = .ok d1 ∧
      pulsePass (recountNP ch ts) ts = .ok ch2 := by
  unfold deriveStep at h
  rw [hch, hts] at h
  have h2 : (match microPass st c (recountNP ch ts) ts (setA c (recountNP ch ts) st.chans) with
    | .error e => (.error e : Except IErr DState)
    | .ok data1 =>
      match pulsePass (recountNP ch ts) ts with
      | .error e => .error e
      | .ok ch2 => .ok ⟨setA c ch2 (setA c (recountNP ch ts) st.chans), data1⟩) = .ok st' := h
  cases hm : microPass st c (recountNP ch ts) ts (setA c (recountNP ch ts) st.chans) with
  | error e =>
    rw [hm] at h2
    exact Except.noConfusion h2
  | ok d1 =>
    rw [hm] at h2
    have h3 : (match pulsePass (recountNP ch ts) ts with
      | .error e => (.error e : Except IErr DState)
      | .ok ch2 => .ok ⟨setA c ch2 (setA c (recountNP ch ts) st.chans), d1⟩) = .ok st' := h2
    cases hp : pulsePass (recountNP ch ts) ts with
    | error e =>
      rw [hp] at h3
      exact Except.noConfusion h3
    | ok ch2 =>
      rw [hp] at h3
      have h4 : (Except.ok (⟨setA c ch2 (setA c (recountNP ch ts) st.chans), d1⟩ : DState) :
          Except IErr DState) = .ok st' := h3
      injection h4 with h4
      refine ⟨ch2, d1, ?_, ?_, rfl, rfl⟩
      · rw [← h4]
      · rw [← h4]

theorem deriveStep_some (st : DState) (c : Int) (st' : DState)
    (h : deriveStep st c = .ok st') :
    ∃ ch ts, lookupA c st.chans = some ch ∧ lookupA c st.dataM = some ts := by
  unfold deriveStep at h
  cases hch : lookupA c st.chans with
  | none =>
    rw [hch] at h
    exact Except.noConfusion h
  | some ch =>
    cases hts : lookupA c st.dataM with
    | none =>
      rw [hch, hts] at h
      exact Except.noConfusion h
    | some ts => exact ⟨ch, ts, rfl, rfl⟩

theorem pulsePass_keeps (ch1 : ChanRec) (ts : TSData) (ch2 : ChanRec)
    (h : pulsePass ch1 ts = .ok ch2) :
    ch2.TotalSyncDivider = ch1.TotalSyncDivider ∧ ch2.NumPhotons = ch1.NumPhotons := by
  rcases pulsePass_char ch1 ts ch2 h with ⟨_, _, _, _, _, h2⟩ | ⟨_, h2⟩ <;> subst h2 <;>
    exact ⟨rfl, rfl⟩

theorem deriveStep_frame (st : DState) (c : Int) (st' : DState)
    (h : deriveStep st c = .ok st') (k : Int) :
    (k ≠ c → lookupA k st'.chans = lookupA k st.chans ∧
      lookupA k st'.dataM = lookupA k st.dataM) ∧
    (lookupA k st'.chans).map (fun x => x.TotalSyncDivider) =
      (lookupA k st.chans).map (fun x => x.TotalSyncDivider) ∧
    (lookupA k st'.dataM).map (fun x => x.macroT) =
      (lookupA k st.dataM).map (fun x => x.macroT) := by
  obtain ⟨ch, ts, hch, hts⟩ := deriveStep_some st c st' h
  obtain ⟨ch2, d1, hc', hd', hm, hp⟩ := deriveStep_char st c ch ts st' hch hts h
  have hdata : d1 = st.dataM ∨
      ∃ ts', d1 = setA c ts' st.dataM ∧ ts'.macroT = ts.macroT := by
    rcases microPass_char _ _ _ _ _ _ hm with ⟨_, he⟩ | ⟨_, rid, tsr, chr, _, _, _, he⟩
    · exact Or.inl he
    · exact Or.inr ⟨_, he, rfl⟩
  refine ⟨?_, ?_, ?_⟩
  · intro hk
    have hk' : c ≠ k := fun hh => hk hh.symm
    constructor
    · rw [hc', lookupA_setA_ne k c ch2 _ hk', lookupA_setA_ne k c (recountNP ch ts) _ hk']
    · rcases hdata with he | ⟨ts', he, _⟩
      · rw [hd', he]
      · rw [hd', he, lookupA_setA_ne k c ts' _ hk']
  · by_cases hk : k = c
    · subst hk
      rw [hc', lookupA_setA_self, hch]
      have h1 := (pulsePass_keeps _ _ _ hp).1
      have h2 := recountNP_TSD ch ts
      simp [h1, h2]
    · exact congrArg (Option.map (fun x => x.TotalSyncDivider))
        ((by
          rw [hc', lookupA_setA_ne k c ch2 _ (fun hh => hk hh.symm),
            lookupA_setA_ne k c (recountNP ch ts) _ (fun hh => hk hh.symm)] :
          lookupA k st'.chans = lookupA k st.chans))
  · by_cases hk : k = c
    · subst hk
      rcases hdata with he | ⟨ts', he, hmac⟩
      · rw [hd', he]
      · rw [hd', he, lookupA_setA_self, hts]
        simp [hmac]
    · rcases hdata with he | ⟨ts', he, _⟩
      · rw [hd', he]
      · rw [hd', he, lookupA_setA_ne k c ts' _ (fun hh => hk hh.symm)]

/-! ## The derivation pass, channel by channel -/

theorem lookupA_mem {κ α : Type} [DecidableEq κ] (k : κ) (m : List (κ × α)) (v : α)
    (h : lookupA k m = some v) : k ∈ m.map Prod.fst := by
  induction m with
  | nil => cases h
  | cons p rest ih =>
    obtain ⟨k₀, v₀⟩ := p
    by_cases hk : k₀ = k
    · subst hk
      simp
    · rw [lookupA, if_neg hk] at h
      simp [ih h]

theorem lookupA_mapData (m : List (Int × ChanRec)) (g : Int → TSData) (c : Int) (v : ChanRec)
    (h : lookupA c m = some v) :
    lookupA c (m.map (fun p => (p.1, g p.1))) = some (g c) := by
  induction m with
  | nil => cases h
  | cons p rest ih =>
    obtain ⟨k₀, v₀⟩ := p
    by_cases hk : k₀ = c
    · subst hk
      simp [lookupA]
    · rw [lookupA, if_neg hk] at h
      simp only [List.map_cons]
      rw [lookupA, if_neg hk]
      exact ih h

theorem lookupA_mapData_inv (m : List (Int × ChanRec)) (g : Int → TSData) (c : Int) (v : TSData)
    (h : lookupA c (m.map (fun p => (p.1, g p.1))) = some v) : v = g c := by
  induction m with
  | nil => cases h
  | cons p rest ih =>
    obtain ⟨k₀, v₀⟩ := p
    simp only [List.map_cons] at h
    by_cases hk : k₀ = c
    · subst hk
      rw [lookupA, if_pos rfl] at h
      injection h with h
      exact h.symm
    · rw [lookupA, if_neg hk] at h
      exact ih h

theorem derive_fold_frame (ks : List Int) (stF : DState) (k : Int) :
    ∀ st, List.foldlM deriveStep st ks = .ok stF → k ∉ ks →
      lookupA k stF.chans = lookupA k st.chans ∧
      lookupA k stF.dataM = lookupA k st.dataM := by
  induction ks with
  | nil =>
    intro st h _
    injection h with h
    subst h
    exact ⟨rfl, rfl⟩
  | cons a ks ih =>
    intro st h hk
    rw [List.foldlM_cons] at h
    cases hd : deriveStep st a with
    | error e =>
      rw [hd] at h
      exact Except.noConfusion h
    | ok st1 =>
      rw [hd] at h
      have h2 : List.foldlM deriveStep st1 ks = .ok stF := h
      have hka : k ≠ a := fun hh => hk (hh ▸ List.mem_cons_self a ks)
      have hf := (deriveStep_frame st a st1 hd k).1 hka
      have hrest := ih st1 h2 (fun hm => hk (List.mem_cons_of_mem _ hm))
      exact ⟨hrest.1.trans hf.1, hrest.2.trans hf.2⟩

theorem derive_fold_preserve (ks : List Int) (stF : DState) (k : Int) :
    ∀ st, List.foldlM deriveStep st ks = .ok stF →
      (lookupA k stF.chans).map (fun x => x.TotalSyncDivider) =
        (lookupA k st.chans).map (fun x => x.TotalSyncDivider) ∧
      (lookupA k stF.dataM).map (fun x => x.macroT) =
        (lookupA k st.dataM).map (fun x => x.macroT) := by
  induction ks with
  | nil =>
    intro st h
    injection h with h
    subst h
    exact ⟨rfl, rfl⟩
  | cons a ks ih =>
    intro st h
    rw [List.foldlM_cons] at h
    cases hd : deriveStep st a with
    | error e =>
      rw [hd] at h
      exact Except.noConfusion h
    | ok st1 =>
      rw [hd] at h
      have h2 : List.foldlM deriveStep st1 ks = .ok stF := h
      have hf := deriveStep_frame st a st1 hd k
      have hrest := ih st1 h2
      exact ⟨hrest.1.trans hf.2.1, hrest.2.trans hf.2.2⟩

theorem foldlM_ok_split (ks1 ks2 : List Int) (stF : DState) :
    ∀ st, List.foldlM deriveStep st (ks1 ++ ks2) = .ok stF →
      ∃ stm, List.foldlM deriveStep st ks1 = .ok stm ∧
        List.foldlM deriveStep stm ks2 = .ok stF := by
  induction ks1 with
  | nil =>
    intro st h
    exact ⟨st, rfl, h⟩
  | cons a ks ih =>
    intro st h
    rw [List.cons_append, List.foldlM_cons] at h
    cases hd : deriveStep st a with
    | error e =>
      rw [hd] at h
      exact Except.noConfusion h
    | ok st1 =>
      rw [hd] at h
      obtain ⟨stm, h1, h2⟩ := ih st1 h
      refine ⟨stm, ?_, h2⟩
      rw [List.foldlM_cons, hd]
      exact h1

/-- Where a channel's final header and data entries come from: under
distinct keys, channel `c`'s final entries are produced by `c`'s own
iteration of the derivation loop, run from a state whose entry for `c` is
still the initial one and whose `TotalSyncDivider` and `macro` projections
everywhere agree with the initial maps. -/
theorem derivePass_at (chans0 : List (Int × ChanRec)) (dataM0 : List (Int × TSData))
    (hnd : (chans0.map Prod.fst).Nodup)
    (stF : DState) (h : derivePass chans0 dataM0 = .ok stF)
    (c : Int) (ch0 : ChanRec) (hc : lookupA c chans0 = some ch0) :
    ∃ st1 st2, deriveStep st1 c = .ok st2 ∧
      lookupA c st1.chans = some ch0 ∧
      lookupA c st1.dataM = lookupA c dataM0 ∧
      (∀ k, (lookupA k st1.chans).map (fun x => x.TotalSyncDivider) =
        (lookupA k chans0).map (fun x => x.TotalSyncDivider)) ∧
      (∀ k, (lookupA k st1.dataM).map (fun x => x.macroT) =
        (lookupA k dataM0).map (fun x => x.macroT)) ∧
      lookupA c stF.chans = lookupA c st2.chans ∧
      lookupA c stF.dataM = lookupA c st2.dataM := by
  have hmem : c ∈ chans0.map Prod.fst := lookupA_mem c chans0 ch0 hc
  obtain ⟨ks1, ks2, hks⟩ := List.mem_iff_append.mp hmem
  have hnd2 : (ks1 ++ c :: ks2).Nodup := hks ▸ hnd
  rw [List.nodup_append] at hnd2
  have hc1 : c ∉ ks1 := fun hmm => hnd2.2.2 hmm (List.mem_cons_self c ks2)
  have hc2 : c ∉ ks2 := by
    have := hnd2.2.1
    rw [List.nodup_cons] at this
    exact this.1
  unfold derivePass at h
  rw [hks] at h
  obtain ⟨st1, h1, h2⟩ := foldlM_ok_split ks1 (c :: ks2) stF ⟨chans0, dataM0⟩ h
  rw [List.foldlM_cons] at h2
  cases hd : deriveStep st1 c with
  | error e =>
    rw [hd] at h2
    exact Except.noConfusion h2
  | ok st2 =>
    rw [hd] at h2
    have h3 : List.foldlM deriveStep st2 ks2 = .ok stF := h2
    have hfr1 := derive_fold_frame ks1 st1 c ⟨chans0, dataM0⟩ h1 hc1
    have hfr2 := derive_fold_frame ks2 stF c st2 h3 hc2
    refine ⟨st1, st2, hd, ?_, ?_, ?_, ?_, hfr2.1, hfr2.2⟩
    · rw [hfr1.1]
      exact hc
    · exact hfr1.2
    · intro k
      exact (derive_fold_preserve ks1 st1 k ⟨chans0, dataM0⟩ h1).1
    · intro k
      exact (derive_fold_preserve ks1 st1 k ⟨chans0, dataM0⟩ h1).2

/-! ## Rounding: round-half-even lands on a nearest integer -/

theorem int_dist_lower (x : ℚ) (m : Int) :
    x - ⌊x⌋ ≤ |(m : ℚ) - x| ∨ (⌊x⌋ : ℚ) + 1 - x ≤ |(m : ℚ) - x| := by
  rcases le_or_lt (m : ℚ) ((⌊x⌋ : Int) : ℚ) with hle | hlt
  · left
    have hfl : ((⌊x⌋ : Int) : ℚ) ≤ x := Int.floor_le x
    rw [abs_of_nonpos (by linarith)]
    linarith
  · right
    have hlt2 : ⌊x⌋ < m := by exact_mod_cast hlt
    have h1 : ((⌊x⌋ : Int) : ℚ) + 1 ≤ (m : ℚ) := by
      have h2 : ⌊x⌋ + 1 ≤ m := hlt2
      exact_mod_cast h2
    have hfu : x < (⌊x⌋ : ℚ) + 1 := Int.lt_floor_add_one x
    rw [abs_of_nonneg (by linarith)]
    linarith

theorem roundHalfEven_nearest (x : ℚ) (m : Int) :
    |((roundHalfEven x : Int) : ℚ) - x| ≤ |(m : ℚ) - x| := by
  have hfl : ((⌊x⌋ : Int) : ℚ) ≤ x := Int.floor_le x
  have hfu : x < (⌊x⌋ : ℚ) + 1 := Int.lt_floor_add_one x
  have hdist := int_dist_lower x m
  unfold roundHalfEven
  split
  · rename_i hr
    rw [abs_of_nonpos (by linarith)]
    rcases hdist with h | h <;> linarith
  split
  · rename_i hr1 hr2
    push_cast
    rw [abs_of_nonneg (by linarith)]
    rcases hdist with h | h <;> linarith
  rename_i hr1 hr2
  have hr3 : x - ⌊x⌋ = 1/2 := by linarith
  split
  · rw [abs_of_nonpos (by linarith)]
    rcases hdist with h | h <;> linarith
  · push_cast
    rw [abs_of_nonneg (by linarith)]
    rcases hdist with h | h <;> linarith

theorem roundHalfEvenPos_eq (S D : Int) (hD : 0 < D) :
    roundHalfEvenPos S D = roundHalfEven ((S : ℚ) / (D : ℚ)) := by
  have hDq : (0 : ℚ) < (D : ℚ) := by exact_mod_cast hD
  have hm0 : 0 ≤ S % D := Int.emod_nonneg S (by omega)
  have hm1 : S % D < D := Int.emod_lt_of_pos S hD
  have hSr : D * (S / D) + S % D = S := Int.ediv_add_emod S D
  have hq : (S : ℚ) / (D : ℚ) = ((S / D : Int) : ℚ) + ((S % D : Int) : ℚ) / (D : ℚ) := by
    have hS : (S : ℚ) = (D : ℚ) * ((S / D : Int) : ℚ) + ((S % D : Int) : ℚ) := by
      exact_mod_cast hSr.symm
    rw [hS]
    field_simp
    ring
  have hfl : ⌊(S : ℚ) / (D : ℚ)⌋ = S / D := by
    rw [Int.floor_eq_iff]
    constructor
    · rw [hq]
      have h1 : (0 : ℚ) ≤ ((S % D : Int) : ℚ) / (D : ℚ) :=
        div_nonneg (by exact_mod_cast hm0) (le_of_lt hDq)
      linarith
    · rw [hq]
      have h1 : ((S % D : Int) : ℚ) / (D : ℚ) < 1 := by
        rw [div_lt_one hDq]
        exact_mod_cast hm1
      linarith
  have hfrac : (S : ℚ) / (D : ℚ) - ((S / D : Int) : ℚ) = ((S % D : Int) : ℚ) / (D : ℚ) := by
    rw [hq]
    ring
  have hhalf1 : ((S : ℚ) / (D : ℚ) - ((S / D : Int) : ℚ) < 1 / 2) ↔ 2 * (S % D) < D := by
    rw [hfrac, div_lt_div_iff₀ hDq (by norm_num : (0 : ℚ) < 2)]
    constructor
    · intro h1
      have h2 : ((2 * (S % D) : Int) : ℚ) < ((D : Int) : ℚ) := by
        push_cast
        linarith
      exact_mod_cast h2
    · intro h1
      have h2 : ((2 * (S % D) : Int) : ℚ) < ((D : Int) : ℚ) := by exact_mod_cast h1
      push_cast at h2
      linarith
  have hhalf2 : (1 / 2 < (S : ℚ) / (D : ℚ) - ((S / D : Int) : ℚ)) ↔ D < 2 * (S % D) := by
    rw [hfrac, div_lt_div_iff₀ (by norm_num : (0 : ℚ) < 2) hDq]
    constructor
    · intro h1
      have h2 : ((D : Int) : ℚ) < ((2 * (S % D) : Int) : ℚ) := by
        push_cast
        linarith
      exact_mod_cast h2
    · intro h1
      have h2 : ((D : Int) : ℚ) < ((2 * (S % D) : Int) : ℚ) := by exact_mod_cast h1
      push_cast at h2
      linarith
  unfold roundHalfEven roundHalfEvenPos
  rw [hfl]
  by_cases h1 : 2 * (S % D) < D
  · rw [if_pos h1, if_pos (hhalf1.mpr h1)]
  · by_cases h2 : D < 2 * (S % D)
    · rw [if_neg h1, if_pos h2, if_neg (fun hc => h1 (hhalf1.mp hc)), if_pos (hhalf2.mpr h2)]
    · rw [if_neg h1, if_neg h2, if_neg (fun hc => h1 (hhalf1.mp hc)),
        if_neg (fun hc => h2 (hhalf2.mp hc))]

theorem roundHalfEvenInt_eq (S D : Int) (hD : D ≠ 0) :
    roundHalfEvenInt S D = roundHalfEven ((S : ℚ) / (D : ℚ)) := by
  unfold roundHalfEvenInt
  split
  · rename_i hneg
    rw [roundHalfEvenPos_eq (-S) (-D) (by omega)]
    congr 1
    push_cast
    exact neg_div_neg_eq _ _
  · rename_i hpos
    exact roundHalfEvenPos_eq S D (by omega)

theorem diffsOf_eq_exact (ms : List Int) (hasc : ascendingB ms = true)
    (hbnd : ms.all (fun t => 0 ≤ t && t < 2 ^ 51) = true) :
    diffsOf ms = exactDiffs ms := by
  induction ms with
  | nil => rfl
  | cons a tl ih =>
    cases tl with
    | nil => rfl
    | cons b tl2 =>
      rw [show ascendingB (a :: b :: tl2) = (decide (a ≤ b) && ascendingB (b :: tl2)) from rfl,
        Bool.and_eq_true, decide_eq_true_eq] at hasc
      have hmem : ∀ t ∈ a :: b :: tl2, 0 ≤ t ∧ t < 2 ^ 51 := by
        intro t ht
        have h1 := (List.all_eq_true.mp hbnd) t ht
        simpa using h1
      have ha2 := hmem a (by simp)
      have hb2 := hmem b (by simp)
      show wrap64 (b - a) :: diffsOf (b :: tl2) = (b - a) :: exactDiffs (b :: tl2)
      rw [ih hasc.2 (by
        rw [List.all_eq_true] at hbnd ⊢
        exact fun t ht => hbnd t (List.mem_cons_of_mem a ht))]
      have hw : wrap64 (b - a) = b - a := by
        unfold wrap64
        have h63 : (2 : Int) ^ 63 = 9223372036854775808 := by norm_num
        have h64 : (2 : Int) ^ 64 = 18446744073709551616 := by norm_num
        have h51 : (2 : Int) ^ 51 = 2251799813685248 := by norm_num
        rw [h63, h64]
        rw [h51] at ha2 hb2
        omega
      rw [hw]

theorem avg_div_combine (S : Int) (n : Nat) (d : Int) :
    (S : ℚ) / (n : ℚ) / (d : ℚ) = (S : ℚ) / (((n : Int) * d : Int) : ℚ) := by
  rw [div_div]
  norm_cast

/-! ## Unfolding `import_data` around a successful run -/

theorem import_data_inv (lines : List String) (readData : Int → List Int × List Int × Int)
    (e : List (String × Option String)) (chansF : List (Int × ChanRec))
    (dataF : List (Int × TSData))
    (e0 : List (String × Option String)) (chans0 : List (Int × ChanRec))
    (himp : import_data lines readData = .ok (e, chansF, dataF))
    (hread : read_sstt_header lines = .ok (e0, chans0)) :
    ∃ stF, derivePass chans0
        (chans0.map (fun p => (p.1, (⟨(readData p.1).1, (readData p.1).2.1⟩ : TSData)))) =
        .ok stF ∧
      chansF = stF.chans ∧ dataF = stF.dataM := by
  unfold import_data at himp
  rw [hread] at himp
  have himp2 : (match derivePass chans0
      (chans0.map (fun p => (p.1, (⟨(readData p.1).1, (readData p.1).2.1⟩ : TSData)))) with
    | .error e2 =>
      (.error e2 : Except IErr
        (List (String × Option String) × List (Int × ChanRec) × List (Int × TSData)))
    | .ok st => .ok (e0, st.chans, st.dataM)) = .ok (e, chansF, dataF) := himp
  cases hdp : derivePass chans0
      (chans0.map (fun p => (p.1, (⟨(readData p.1).1, (readData p.1).2.1⟩ : TSData)))) with
  | error e2 =>
    rw [hdp] at himp2
    exact Except.noConfusion himp2
  | ok stF =>
    rw [hdp] at himp2
    have h4 : (Except.ok (e0, stF.chans, stF.dataM) : Except IErr
        (List (String × Option String) × List (Int × ChanRec) × List (Int × TSData))) =
        .ok (e, chansF, dataF) := himp2
    injection h4 with h4
    exact ⟨stF, rfl, (congrArg (fun p => p.2.1) h4).symm, (congrArg (fun p => p.2.2) h4).symm⟩

/-! ## Claim C8: lazy NumPhotons recount -/

/-- Claim C8: for every channel in the derivation pass of `import_data`, a
declared `NumPhotons` of zero is replaced by the length of the channel's
macro sequence, and a nonzero declared value is left unchanged (never
cross-checked); consequently a channel whose `NumPhotons` already equals
its macro-sequence length keeps it unchanged (idempotence of the recount). -/
theorem C8_numphotons_recount
    (lines : List String) (readData : Int → List Int × List Int × Int)
    (e : List (String × Option String)) (chansF : List (Int × ChanRec))
    (dataF : List (Int × TSData))
    (e0 : List (String × Option String)) (chans0 : List (Int × ChanRec))
    (himp : import_data lines readData = .ok (e, chansF, dataF))
    (hread : read_sstt_header lines = .ok (e0, chans0))
    (c : Int) (ch0 chF : ChanRec)
    (hc0 : lookupA c chans0 = some ch0)
    (hcF : lookupA c chansF = some chF) :
    chF.NumPhotons =
      (if ch0.NumPhotons = 0 then (((readData c).1).length : Int) else ch0.NumPhotons) ∧
    (ch0.NumPhotons = (((readData c).1).length : Int) → chF.NumPhotons = ch0.NumPhotons) := by
  obtain ⟨stF, hdp, hce, hde⟩ :=
    import_data_inv lines readData e chansF dataF e0 chans0 himp hread
  have hnd := read_sstt_header_nodup lines e0 chans0 hread
  obtain ⟨st1, st2, hstep, hch1, hts1, hTSD, hmac, hcF2, hdF2⟩ :=
    derivePass_at chans0 _ hnd stF hdp c ch0 hc0
  have hdm : lookupA c
      (chans0.map (fun p => (p.1, (⟨(readData p.1).1, (readData p.1).2.1⟩ : TSData)))) =
      some ⟨(readData c).1, (readData c).2.1⟩ :=
    lookupA_mapData chans0 (fun k => (⟨(readData k).1, (readData k).2.1⟩ : TSData)) c ch0 hc0
  have hts : lookupA c st1.dataM = some ⟨(readData c).1, (readData c).2.1⟩ := by
    rw [hts1, hdm]
  obtain ⟨ch2, d1, hc', hd', hm, hp⟩ :=
    deriveStep_char st1 c ch0 ⟨(readData c).1, (readData c).2.1⟩ st2 hch1 hts hstep
  have hchF : chF = ch2 := by
    rw [hce] at hcF
    rw [hcF2, hc', lookupA_setA_self] at hcF
    injection hcF with hcF
    exact hcF.symm
  have hNP : chF.NumPhotons =
      (if ch0.NumPhotons = 0 then (((readData c).1).length : Int) else ch0.NumPhotons) := by
    rw [hchF, (pulsePass_keeps _ _ _ hp).2, recountNP_NP]
  refine ⟨hNP, fun heq => ?_⟩
  rw [hNP]
  by_cases h0 : ch0.NumPhotons = 0
  · rw [if_pos h0]
    exact heq.symm
  · rw [if_neg h0]

/-- Claim C8, witness: channel 1 declares NumPhotons 0 and gets the macro
length 3; channel 2 declares 7 (equal to its macro length) and keeps it. -/
theorem C8_numphotons_recount_witness :
    ((import_data
        ["CHANNEL_HEADER", "ChannelID\tNumPhotons", "1\t0", "",
         "CHANNEL_HEADER", "ChannelID\tNumPhotons", "2\t7"]
        (fun k => if k = 1 then ([5, 6, 7], [], 0) else ([1, 2, 3, 4, 5, 6, 7], [], 0))).map
      (fun out => ((lookupA 1 out.2.1).map (fun ch => ch.NumPhotons),
                   (lookupA 2 out.2.1).map (fun ch => ch.NumPhotons))) =
      .ok (some 3, some 7)) ∧
    ({ ChannelID := some 2, NumPhotons := 7, PulsePeriod := some 0 } : ChanRec).NumPhotons = 7 :=
  ⟨by rfl,
   (C8_numphotons_recount
      ["CHANNEL_HEADER", "ChannelID\tNumPhotons", "1\t0", "",
       "CHANNEL_HEADER", "ChannelID\tNumPhotons", "2\t7"]
      (fun k => if k = 1 then ([5, 6, 7], [], 0) else ([1, 2, 3, 4, 5, 6, 7], [], 0))
      _ _ _ _ _ rfl rfl 2 _ _ rfl rfl).2 (by rfl)⟩

/-! ## Claim C1: PulsePeriod -/

/-- Claim C1 (amended): for every channel processed by `import_data` with
`IsPulsesChannel` true and at least two macro-timestamps, PROVIDED the
macro-timestamps are ascending and lie in `[0, 2^51)` — so the int64
elementwise subtraction does not wrap and the float64 average stays inside
the exactly-representable regime — the final `PulsePeriod` is the
round-half-even of (average of consecutive differences of the
macro-timestamps) divided by the channel's own `TotalSyncDivider`, and
that rounding is a nearest integer to the exact quotient (no integer is
strictly closer); for every channel with `IsPulsesChannel` false the final
`PulsePeriod` is 0.  Without the proviso the subtraction wraps
two's-complement (see the counterexample) and `np.int64` of the rounded
value raises `OverflowError` outside the int64 range. -/
theorem C1_pulse_period
    (lines : List String) (readData : Int → List Int × List Int × Int)
    (e : List (String × Option String)) (chansF : List (Int × ChanRec))
    (dataF : List (Int × TSData))
    (e0 : List (String × Option String)) (chans0 : List (Int × ChanRec))
    (himp : import_data lines readData = .ok (e, chansF, dataF))
    (hread : read_sstt_header lines = .ok (e0, chans0))
    (c : Int) (ch0 chF : ChanRec)
    (hc0 : lookupA c chans0 = some ch0)
    (hcF : lookupA c chansF = some chF) :
    (ch0.IsPulsesChannel = true → 2 ≤ ((readData c).1).length →
      ascendingB (readData c).1 = true →
      ((readData c).1).all (fun t => 0 ≤ t && t < 2 ^ 51) = true →
      chF.PulsePeriod = some (roundHalfEvenInt (exactDiffs (readData c).1).sum
          (((exactDiffs (readData c).1).length : Int) * ch0.TotalSyncDivider)) ∧
      ∀ m : Int,
        |((roundHalfEvenInt (exactDiffs (readData c).1).sum
            (((exactDiffs (readData c).1).length : Int) * ch0.TotalSyncDivider) : Int) : ℚ) -
            exactAvgPeriod (readData c).1 ch0.TotalSyncDivider| ≤
          |(m : ℚ) - exactAvgPeriod (readData c).1 ch0.TotalSyncDivider|) ∧
    (ch0.IsPulsesChannel = false → chF.PulsePeriod = some 0) := by
  obtain ⟨stF, hdp, hce, hde⟩ :=
    import_data_inv lines readData e chansF dataF e0 chans0 himp hread
  have hnd := read_sstt_header_nodup lines e0 chans0 hread
  obtain ⟨st1, st2, hstep, hch1, hts1, hTSD, hmac, hcF2, hdF2⟩ :=
    derivePass_at chans0 _ hnd stF hdp c ch0 hc0
  have hdm : lookupA c
      (chans0.map (fun p => (p.1, (⟨(readData p.1).1, (readData p.1).2.1⟩ : TSData)))) =
      some ⟨(readData c).1, (readData c).2.1⟩ :=
    lookupA_mapData chans0 (fun k => (⟨(readData k).1, (readData k).2.1⟩ : TSData)) c ch0 hc0
  have hts : lookupA c st1.dataM = some ⟨(readData c).1, (readData c).2.1⟩ := by
    rw [hts1, hdm]
  obtain ⟨ch2, d1, hc', hd', hm, hp⟩ :=
    deriveStep_char st1 c ch0 ⟨(readData c).1, (readData c).2.1⟩ st2 hch1 hts hstep
  have hchF : chF = ch2 := by
    rw [hce] at hcF
    rw [hcF2, hc', lookupA_setA_self] at hcF
    injection hcF with hcF
    exact hcF.symm
  constructor
  · intro hpul _ hasc hbnd
    have hdiff : diffsOf (readData c).1 = exactDiffs (readData c).1 :=
      diffsOf_eq_exact (readData c).1 hasc hbnd
    rcases pulsePass_char _ _ _ hp with ⟨_, hlen, hdiv, _, _, h2⟩ | ⟨hfalse, _⟩
    · have hmt : (⟨(readData c).1, (readData c).2.1⟩ : TSData).macroT = (readData c).1 := rfl
      have hpr : pulseRound ⟨(readData c).1, (readData c).2.1⟩
          (recountNP ch0 ⟨(readData c).1, (readData c).2.1⟩).TotalSyncDivider =
          roundHalfEvenInt (exactDiffs (readData c).1).sum
            (((exactDiffs (readData c).1).length : Int) * ch0.TotalSyncDivider) := by
        unfold pulseRound
        rw [recountNP_TSD, hmt, hdiff]
      constructor
      · rw [hchF, h2]
        show some (pulseRound ⟨(readData c).1, (readData c).2.1⟩
          (recountNP ch0 ⟨(readData c).1, (readData c).2.1⟩).TotalSyncDivider) = _
        rw [hpr]
      · intro m
        have hlen2 : (exactDiffs (readData c).1).length ≠ 0 := by
          rw [← hdiff]
          exact hlen
        have hdiv2 : ch0.TotalSyncDivider ≠ 0 := by
          rw [recountNP_TSD] at hdiv
          exact hdiv
        have hD : ((exactDiffs (readData c).1).length : Int) * ch0.TotalSyncDivider ≠ 0 :=
          mul_ne_zero (by exact_mod_cast hlen2) hdiv2
        rw [roundHalfEvenInt_eq _ _ hD]
        have havg : exactAvgPeriod (readData c).1 ch0.TotalSyncDivider =
            (((exactDiffs (readData c).1).sum : Int) : ℚ) /
              ((((exactDiffs (readData c).1).length : Int) * ch0.TotalSyncDivider : Int) : ℚ) := by
          unfold exactAvgPeriod
          exact avg_div_combine _ _ _
        rw [havg]
        exact roundHalfEven_nearest _ m
    · rw [(recountNP_flags ch0 ⟨(readData c).1, (readData c).2.1⟩).1, hpul] at hfalse
      cases hfalse
  · intro hpul
    rcases pulsePass_char _ _ _ hp with ⟨htrue, _, _, _, _, _⟩ | ⟨_, h2⟩
    · rw [(recountNP_flags ch0 ⟨(readData c).1, (readData c).2.1⟩).1, hpul] at htrue
      cases htrue
    · rw [hchF, h2]

/-- Claim C1, witness: a pulses channel with ascending macro-timestamps
[0, 100, 200, 300] in range and TotalSyncDivider 1 gets PulsePeriod 100,
100 is the round-half-even of the exact average, and 100 is at least as
close to the exact average as the integer 99 is. -/
theorem C1_pulse_period_witness :
    ((import_data ["CHANNEL_HEADER", "ChannelID\tIsPulsesChannel", "1\t1"]
        (fun _ => ([0, 100, 200, 300], [], 0))).map
      (fun out => (lookupA 1 out.2.1).map (fun ch => ch.PulsePeriod)) =
      .ok (some (some 100))) ∧
    roundHalfEvenInt (exactDiffs [0, 100, 200, 300]).sum
      (((exactDiffs [0, 100, 200, 300]).length : Int) * 1) = 100 ∧
    |((roundHalfEvenInt (exactDiffs [0, 100, 200, 300]).sum
        (((exactDiffs [0, 100, 200, 300]).length : Int) * 1) : Int) : ℚ) -
        exactAvgPeriod [0, 100, 200, 300] 1| ≤
      |((99 : Int) : ℚ) - exactAvgPeriod [0, 100, 200, 300] 1| := by
  refine ⟨by rfl, by decide, ?_⟩
  exact ((C1_pulse_period ["CHANNEL_HEADER", "ChannelID\tIsPulsesChannel", "1\t1"]
      (fun _ => ([0, 100, 200, 300], [], 0)) _ _ _ _ _ rfl rfl 1 _ _ rfl rfl).1
      (by rfl) (by decide) (by decide) (by decide)).2 99

/-- Claim C1, counterexample to the unconditional claim: a pulses channel
with macro-timestamps [-2^62, 2^62] and TotalSyncDivider 1.  The numpy
int64 subtraction 2^62 - (-2^62) = 2^63 wraps to -2^63, so the program
stores PulsePeriod -2^63; but the exact average of the true consecutive
differences is 2^63, and the integer 2^63 is strictly closer to it than
the stored value — the stored PulsePeriod is not a nearest integer to the
average of consecutive differences. -/
theorem C1_counterexample :
    ((import_data ["CHANNEL_HEADER", "ChannelID\tIsPulsesChannel", "1\t1"]
        (fun _ => ([-(2 ^ 62), 2 ^ 62], [], 0))).map
      (fun out => (lookupA 1 out.2.1).map (fun ch => ch.PulsePeriod)) =
      .ok (some (some (-(2 ^ 63))))) ∧
    exactAvgPeriod [-(2 ^ 62), 2 ^ 62] 1 = ((2 ^ 63 : Int) : ℚ) ∧
    |((2 ^ 63 : Int) : ℚ) - exactAvgPeriod [-(2 ^ 62), 2 ^ 62] 1| <
      |((-(2 ^ 63) : Int) : ℚ) - exactAvgPeriod [-(2 ^ 62), 2 ^ 62] 1| := by
  have h : exactAvgPeriod [-(2 ^ 62), 2 ^ 62] 1 = ((2 ^ 63 : Int) : ℚ) := by
    norm_num [exactAvgPeriod, exactDiffs]
  refine ⟨by rfl, h, ?_⟩
  rw [h]
  norm_num

/-! ## Claim C2: microtime generation -/

/-- Claim C2: for every channel `c` processed by `import_data` with
`HasPulsesChannel` true, `HasMicrotimes` false and `NumPhotons > 0` after
the lazy recount, `c`'s micro sequence is overwritten with
`gen_micro_times` applied to the macro sequence of the channel named by
`c.CorrespondingPulsesChannel`, `c`'s own macro sequence, and the
REFERENCED channel's `TotalSyncDivider` (not `c`'s own); the result is
index-aligned with (same length and order as) `c`'s macro sequence.  For a
channel not satisfying the condition, the micro sequence is left as read. -/
theorem C2_microtime_generation
    (lines : List String) (readData : Int → List Int × List Int × Int)
    (e : List (String × Option String)) (chansF : List (Int × ChanRec))
    (dataF : List (Int × TSData))
    (e0 : List (String × Option String)) (chans0 : List (Int × ChanRec))
    (himp : import_data lines readData = .ok (e, chansF, dataF))
    (hread : read_sstt_header lines = .ok (e0, chans0))
    (c : Int) (ch0 : ChanRec) (tsF : TSData)
    (hc0 : lookupA c chans0 = some ch0)
    (hdF : lookupA c dataF = some tsF) :
    ((ch0.HasPulsesChannel = true ∧ ch0.HasMicrotimes = false ∧
      0 < (if ch0.NumPhotons = 0 then (((readData c).1).length : Int) else ch0.NumPhotons)) →
      ∃ rid chr0, ch0.CorrespondingPulsesChannel = some rid ∧
        lookupA rid chans0 = some chr0 ∧
        tsF.micro = gen_micro_times (readData rid).1 (readData c).1 chr0.TotalSyncDivider ∧
        tsF.micro.length = ((readData c).1).length ∧
        tsF.macroT = (readData c).1) ∧
    (¬(ch0.HasPulsesChannel = true ∧ ch0.HasMicrotimes = false ∧
      0 < (if ch0.NumPhotons = 0 then (((readData c).1).length : Int) else ch0.NumPhotons)) →
      tsF.micro = (readData c).2.1) := by
  obtain ⟨stF, hdp, hce, hde⟩ :=
    import_data_inv lines readData e chansF dataF e0 chans0 himp hread
  have hnd := read_sstt_header_nodup lines e0 chans0 hread
  obtain ⟨st1, st2, hstep, hch1, hts1, hTSD, hmac, hcF2, hdF2⟩ :=
    derivePass_at chans0 _ hnd stF hdp c ch0 hc0
  have hdm : lookupA c
      (chans0.map (fun p => (p.1, (⟨(readData p.1).1, (readData p.1).2.1⟩ : TSData)))) =
      some ⟨(readData c).1, (readData c).2.1⟩ :=
    lookupA_mapData chans0 (fun k => (⟨(readData k).1, (readData k).2.1⟩ : TSData)) c ch0 hc0
  have hts : lookupA c st1.dataM = some ⟨(readData c).1, (readData c).2.1⟩ := by
    rw [hts1, hdm]
  obtain ⟨ch2, d1, hc', hd', hm, hp⟩ :=
    deriveStep_char st1 c ch0 ⟨(readData c).1, (readData c).2.1⟩ st2 hch1 hts hstep
  have hflags := recountNP_flags ch0 ⟨(readData c).1, (readData c).2.1⟩
  have hNP1 : (recountNP ch0 ⟨(readData c).1, (readData c).2.1⟩).NumPhotons =
      (if ch0.NumPhotons = 0 then (((readData c).1).length : Int) else ch0.NumPhotons) :=
    recountNP_NP ch0 ⟨(readData c).1, (readData c).2.1⟩
  have hcond_iff :
      ((recountNP ch0 ⟨(readData c).1, (readData c).2.1⟩).HasPulsesChannel = true ∧
       (recountNP ch0 ⟨(readData c).1, (readData c).2.1⟩).HasMicrotimes = false ∧
       0 < (recountNP ch0 ⟨(readData c).1, (readData c).2.1⟩).NumPhotons) ↔
      (ch0.HasPulsesChannel = true ∧ ch0.HasMicrotimes = false ∧
       0 < (if ch0.NumPhotons = 0 then (((readData c).1).length : Int) else ch0.NumPhotons)) := by
    rw [hflags.2.1, hflags.2.2.1, hNP1]
  have hdFeq : lookupA c st2.dataM = some tsF := by
    rw [hde] at hdF
    rw [← hdF2]
    exact hdF
  constructor
  · intro hcond
    rcases microPass_char _ _ _ _ _ _ hm with ⟨hnc, _⟩ |
      ⟨_, rid, tsr, chr, hrid, htsr, hchr, hd1⟩
    · exact absurd (hcond_iff.mpr hcond) hnc
    · have htsF : tsF =
          { macroT := (readData c).1,
            micro := gen_micro_times tsr.macroT (readData c).1 chr.TotalSyncDivider } := by
        rw [hd', hd1, lookupA_setA_self] at hdFeq
        injection hdFeq with h5
        exact h5.symm
      have hmacr := hmac rid
      rw [htsr] at hmacr
      rcases Option.map_eq_some'.mp hmacr.symm with ⟨tsr0, htsr0, hmacEq⟩
      have htsr0' := lookupA_mapData_inv chans0
        (fun k => (⟨(readData k).1, (readData k).2.1⟩ : TSData)) rid tsr0 htsr0
      have hmac2 : tsr.macroT = (readData rid).1 := by
        have hb : tsr0.macroT = tsr.macroT := hmacEq
        rw [← hb, htsr0']
      have hrid0 : ch0.CorrespondingPulsesChannel = some rid := by
        rw [← hflags.2.2.2]
        exact hrid
      by_cases hridc : rid = c
      · subst hridc
        rw [lookupA_setA_self] at hchr
        injection hchr with hchr
        refine ⟨rid, ch0, hrid0, hc0, ?_, ?_, ?_⟩
        · rw [htsF]
          show gen_micro_times tsr.macroT (readData rid).1 chr.TotalSyncDivider = _
          rw [hmac2, ← hchr, recountNP_TSD]
        · rw [htsF]
          exact gen_micro_times_length tsr.macroT (readData rid).1 chr.TotalSyncDivider
        · rw [htsF]
      · have hchr2 : lookupA rid st1.chans = some chr := by
          rw [lookupA_setA_ne rid c _ _ (fun hh => hridc hh.symm)] at hchr
          exact hchr
        have hTSDr := hTSD rid
        rw [hchr2] at hTSDr
        rcases Option.map_eq_some'.mp hTSDr.symm with ⟨chr0, hchr0, hTSDeq⟩
        have hb2 : chr0.TotalSyncDivider = chr.TotalSyncDivider := hTSDeq
        refine ⟨rid, chr0, hrid0, hchr0, ?_, ?_, ?_⟩
        · rw [htsF]
          show gen_micro_times tsr.macroT (readData c).1 chr.TotalSyncDivider = _
          rw [hmac2, ← hb2]
        · rw [htsF]
          exact gen_micro_times_length tsr.macroT (readData c).1 chr.TotalSyncDivider
        · rw [htsF]
  · intro hcond
    rcases microPass_char _ _ _ _ _ _ hm with ⟨_, hd1⟩ | ⟨hcnd, _⟩
    · rw [hd', hd1, hts] at hdFeq
      injection hdFeq with h5
      rw [← h5]
    · exact absurd (hcond_iff.mp hcnd) hcond

/-- Claim C2, witness: reference edges [0, 50, 100] with divider 1; the
event at timestamp 120 yields microtime 20 (offset from edge 100), and the
generated sequence is index-aligned with the channel's macro sequence. -/
theorem C2_microtime_generation_witness :
    ((import_data
        ["CHANNEL_HEADER",
         "ChannelID\tIsPulsesChannel\tHasPulsesChannel\tCorrespondingPulsesChannel",
         "1\t1\t0\t0", "2\t0\t1\t1"]
        (fun k => if k = 1 then ([0, 50, 100], [], 0) else ([120], [], 0))).map
      (fun out => (lookupA 2 out.2.2).map (fun ts => ts.micro)) = .ok (some [20])) ∧
    gen_micro_times [0, 50, 100] [120] 1 = [20] ∧
    ((⟨[120], [20]⟩ : TSData)).micro.length = ([120] : List Int).length := by
  refine ⟨by rfl, by rfl, ?_⟩
  obtain ⟨rid, chr0, hrid, hchr0, hmicro, hlen, hmm⟩ :=
    (C2_microtime_generation
      ["CHANNEL_HEADER",
       "ChannelID\tIsPulsesChannel\tHasPulsesChannel\tCorrespondingPulsesChannel",
       "1\t1\t0\t0", "2\t0\t1\t1"]
      (fun k => if k = 1 then ([0, 50, 100], [], 0) else ([120], [], 0))
      _ _ _ _ _ rfl rfl 2 _ ⟨[120], [20]⟩ rfl rfl).1 (by decide)
  exact hlen

end LibTimetag
